import Mathlib

/-!
LC-3 virtual machine (`vm.c`).

A shallow embedding of the emulator in `vm.c`: the register file, the memory
array, the memory-mapped keyboard registers, the image loader, and one iteration
of the fetch-execute loop of `main`, followed by theorems about them.

Conventions of the embedding.

* A `uint16_t` is a `Nat`; every place where the C arithmetic can leave the
  16-bit range carries an explicit `% 65536`.  A state is *well formed* (`WF`)
  when every stored word is below `65536`.
* `memory` is declared `uint16_t memory[UINT16_MAX]`, so its valid indices are
  `0 .. UINT16_MAX - 1`.  An access outside that range has no defined result;
  the operations that index memory therefore return an `Option`.
* The console is part of the state: `kbhit` lists the answers of the successive
  `check_key()` polls, `stdin` the bytes that successive `getchar()` calls
  deliver, `stdout` the bytes written so far.
-/

namespace LC3

/-! ## Constants (the enums of `vm.c`) -/

abbrev R_R0 : Nat := 0
abbrev R_R1 : Nat := 1
abbrev R_R2 : Nat := 2
abbrev R_R3 : Nat := 3
abbrev R_R4 : Nat := 4
abbrev R_R5 : Nat := 5
abbrev R_R6 : Nat := 6
abbrev R_R7 : Nat := 7
abbrev R_PC : Nat := 8
abbrev R_COND : Nat := 9
abbrev R_COUNT : Nat := 10

abbrev FL_POS : Nat := 1 <<< 0
abbrev FL_ZRO : Nat := 1 <<< 1
abbrev FL_NEG : Nat := 1 <<< 2

abbrev OP_BR : Nat := 0
abbrev OP_ADD : Nat := 1
abbrev OP_LD : Nat := 2
abbrev OP_ST : Nat := 3
abbrev OP_JSR : Nat := 4
abbrev OP_AND : Nat := 5
abbrev OP_LDR : Nat := 6
abbrev OP_STR : Nat := 7
abbrev OP_RTI : Nat := 8
abbrev OP_NOT : Nat := 9
abbrev OP_LDI : Nat := 10
abbrev OP_STI : Nat := 11
abbrev OP_JMP : Nat := 12
abbrev OP_RES : Nat := 13
abbrev OP_LEA : Nat := 14
abbrev OP_TRAP : Nat := 15

abbrev MR_KBSR : Nat := 0xFE00
abbrev MR_KBDR : Nat := 0xFE02

abbrev TRAP_GETC : Nat := 0x20
abbrev TRAP_OUT : Nat := 0x21
abbrev TRAP_PUTS : Nat := 0x22
abbrev TRAP_IN : Nat := 0x23
abbrev TRAP_PUTSP : Nat := 0x24
abbrev TRAP_HALT : Nat := 0x25

abbrev UINT16_MAX : Nat := 65535
abbrev PC_START : Nat := 0x3000

/-! ## Machine state -/

/-- The globals of `vm.c` (`memory`, `registers`), the local `running` of `main`,
and the console. -/
structure VM where
  /-- Contents of `uint16_t memory[UINT16_MAX]`; only indices below `UINT16_MAX` exist. -/
  memory : Nat → Nat
  /-- Contents of `uint16_t registers[R_COUNT]`. -/
  registers : Nat → Nat
  /-- Value of `int running`. -/
  running : Nat
  /-- Answers of the successive `check_key()` calls. -/
  kbhit : List Bool
  /-- Bytes delivered by the successive `getchar()` calls. -/
  stdin : List Nat
  /-- Bytes written to standard output, oldest first. -/
  stdout : List Nat

/-- Assignment `registers[r] = v`. -/
def VM.setReg (vm : VM) (r v : Nat) : VM :=
  { vm with registers := fun i => if i = r then v else vm.registers i }

/-- Assignment `memory[a] = v` (the index is checked by the callers). -/
def VM.setMem (vm : VM) (a v : Nat) : VM :=
  { vm with memory := fun i => if i = a then v else vm.memory i }

/-- Writing one byte with `putc`. -/
def VM.putc (vm : VM) (c : Nat) : VM :=
  { vm with stdout := vm.stdout ++ [c % 256] }

/-- Every stored word is a 16-bit value. -/
def WF (vm : VM) : Prop :=
  (∀ a, vm.memory a < 65536) ∧ (∀ r, vm.registers r < 65536)

/-- Conversion of an `int` to `uint16_t`. -/
def toU16 (i : Int) : Nat := (i % 65536).toNat

/-- Conversion of an `int` to `char` (a signed 8-bit type on the Windows targets
this file is written for). -/
def toChar (i : Int) : Int :=
  if i % 256 < 128 then i % 256 else i % 256 - 256

/-- The C operator `&&` on integers. -/
def logical_and (a b : Nat) : Nat :=
  if a ≠ 0 ∧ b ≠ 0 then 1 else 0

/-! ## Helper functions of `vm.c` -/

/-- Function `sign_extend` (vm.c:80).  `0xFFFF << bit_count` is computed exactly and the
assignment to the `uint16_t` keeps the low 16 bits. -/
def sign_extend (x : Nat) (bit_count : Nat) : Nat :=
  if ((x >>> (bit_count - 1)) &&& 1) ≠ 0 then
    (x ||| (0xFFFF <<< bit_count)) % 65536
  else
    x

/-- Function `swap16` (vm.c:87). -/
def swap16 (x : Nat) : Nat :=
  ((x <<< 8) ||| (x >>> 8)) % 65536

/-- Function `update_flags` (vm.c:92). -/
def update_flags (r : Nat) (vm : VM) : VM :=
  if vm.registers r = 0 then
    vm.setReg R_COND FL_ZRO
  else if vm.registers r >>> 15 ≠ 0 then
    vm.setReg R_COND FL_NEG
  else
    vm.setReg R_COND FL_POS

/-- Library call `getchar()`: the next input byte, or `EOF` (-1) when the input is exhausted. -/
def getchar (vm : VM) : Int × VM :=
  match vm.stdin with
  | [] => (-1, vm)
  | c :: rest => (((c % 256 : Nat) : Int), { vm with stdin := rest })

/-- Function `check_key` (vm.c:134): the answer of the next poll; no key once the
recorded polls are used up. -/
def check_key (vm : VM) : Bool × VM :=
  match vm.kbhit with
  | [] => (false, vm)
  | b :: rest => (b, { vm with kbhit := rest })

/-- Function `mem_write` (vm.c:139). -/
def mem_write (address val : Nat) (vm : VM) : Option VM :=
  if address < UINT16_MAX then some (vm.setMem address val) else none

/-- Function `mem_read` (vm.c:143): returns the word read and the state after the
keyboard poll that a read of `MR_KBSR` performs. -/
def mem_read (address : Nat) (vm : VM) : Option (Nat × VM) :=
  let vm1 :=
    if address = MR_KBSR then
      let k := check_key vm
      if k.1 then
        let g := getchar (k.2.setMem MR_KBSR (1 <<< 15))
        g.2.setMem MR_KBDR (toU16 g.1)
      else
        k.2.setMem MR_KBSR 0
    else vm
  if address < UINT16_MAX then some (vm1.memory address, vm1) else none

/-! ## The cases of the `switch` in `main` -/

/-- Case `OP_ADD` (vm.c:221). -/
def op_ADD (instr : Nat) (vm : VM) : VM :=
  let r0 := (instr >>> 9) &&& 0x7
  let r1 := (instr >>> 6) &&& 0x7
  let imm_flag := (instr >>> 5) &&& 0x1
  let vm1 :=
    if imm_flag ≠ 0 then
      let imm5 := sign_extend (instr &&& 0x1F) 5
      vm.setReg r0 ((vm.registers r1 + imm5) % 65536)
    else
      let r2 := instr &&& 0x7
      vm.setReg r0 ((vm.registers r1 + vm.registers r2) % 65536)
  update_flags r0 vm1

/-- Case `OP_AND` (vm.c:242). -/
def op_AND (instr : Nat) (vm : VM) : VM :=
  let r0 := (instr >>> 9) &&& 0x7
  let r1 := (instr >>> 6) &&& 0x7
  let imm_flag := (instr >>> 5) &&& 0x1
  let vm1 :=
    if imm_flag ≠ 0 then
      let imm5 := sign_extend (instr &&& 0x1F) 5
      vm.setReg r0 (vm.registers r1 &&& imm5)
    else
      let r2 := instr &&& 0x7
      vm.setReg r0 (vm.registers r1 &&& vm.registers r2)
  update_flags r0 vm1

/-- Case `OP_NOT` (vm.c:263): `~` on the promoted value, truncated to 16 bits. -/
def op_NOT (instr : Nat) (vm : VM) : VM :=
  let r0 := (instr >>> 9) &&& 0x7
  let r1 := (instr >>> 6) &&& 0x7
  update_flags r0 (vm.setReg r0 (0xFFFF - vm.registers r1 % 65536))

/-- Case `OP_BR` (vm.c:272). -/
def op_BR (instr : Nat) (vm : VM) : VM :=
  let pc_offset9 := sign_extend (instr &&& 0x1FF) 9
  let cond_flag := logical_and (instr >>> 9) 0x7
  if (vm.registers R_COND &&& cond_flag) ≠ 0 then
    vm.setReg R_PC ((vm.registers R_PC + pc_offset9) % 65536)
  else
    vm

/-- Case `OP_JMP` (vm.c:282). -/
def op_JMP (instr : Nat) (vm : VM) : VM :=
  let base_r := (instr >>> 6) &&& 0x7
  vm.setReg R_PC (vm.registers base_r)

/-- Case `OP_JSR` (vm.c:288). -/
def op_JSR (instr : Nat) (vm : VM) : VM :=
  let long_flag := (instr >>> 11) &&& 0x1
  let base_r := (instr >>> 6) &&& 0x7
  let pc_offset11 := sign_extend (instr &&& 0x7FFF) 11
  let vm1 := vm.setReg R_R7 (vm.registers R_PC)
  if long_flag = 0 then
    vm1.setReg R_PC (vm1.registers base_r)
  else
    vm1.setReg R_PC ((vm1.registers R_PC + pc_offset11) % 65536)

/-- Case `OP_LD` (vm.c:306). -/
def op_LD (instr : Nat) (vm : VM) : Option VM :=
  let r0 := (instr >>> 9) &&& 0x7
  let pc_offset9 := sign_extend (instr &&& 0x1FF) 9
  (mem_read ((vm.registers R_PC + pc_offset9) % 65536) vm).map
    fun p => update_flags r0 (p.2.setReg r0 p.1)

/-- Case `OP_LDI` (vm.c:316). -/
def op_LDI (instr : Nat) (vm : VM) : Option VM :=
  let r0 := (instr >>> 9) &&& 0x7
  let pc_offset9 := instr &&& 0x1FF
  (mem_read ((vm.registers R_PC + sign_extend pc_offset9 9) % 65536) vm).map
    fun p => update_flags r0 (p.2.setReg r0 p.1)

/-- Case `OP_LDR` (vm.c:326). -/
def op_LDR (instr : Nat) (vm : VM) : Option VM :=
  let r0 := (instr >>> 9) &&& 0x7
  let base_r := (instr >>> 6) &&& 0x7
  let pc_offset6 := sign_extend (instr &&& 0x3F) 6
  (mem_read ((vm.registers base_r + pc_offset6) % 65536) vm).map
    fun p => update_flags r0 (p.2.setReg r0 p.1)

/-- Case `OP_LEA` (vm.c:337). -/
def op_LEA (instr : Nat) (vm : VM) : VM :=
  let r0 := (instr >>> 9) &&& 0x7
  let pc_offset9 := sign_extend (instr &&& 0x1FF) 9
  update_flags r0 (vm.setReg r0 ((vm.registers R_PC + pc_offset9) % 65536))

/-- Case `OP_ST` (vm.c:347). -/
def op_ST (instr : Nat) (vm : VM) : Option VM :=
  let r0 := logical_and (instr >>> 9) 0x7
  let pc_offset9 := sign_extend (instr &&& 0x1FF) 9
  mem_write ((vm.registers R_PC + pc_offset9) % 65536) (vm.registers r0) vm

/-- Case `OP_STI` (vm.c:355). -/
def op_STI (instr : Nat) (vm : VM) : Option VM :=
  let r0 := (instr >>> 9) &&& 0x7
  let pc_offset9 := sign_extend (instr &&& 0x1FF) 9
  (mem_read ((vm.registers R_PC + pc_offset9) % 65536) vm).bind
    fun p => mem_write p.1 (p.2.registers r0) p.2

/-- Case `OP_STR` (vm.c:363). -/
def op_STR (instr : Nat) (vm : VM) : Option VM :=
  let sr := (instr >>> 9) &&& 0x7
  let base_r := (instr >>> 9) &&& 0x7
  let pc_offset6 := sign_extend (instr &&& 0x3F) 9
  mem_write ((vm.registers base_r + pc_offset6) % 65536) (vm.registers sr) vm

/-- The loop of case `TRAP_PUTS` (vm.c:391): `c` is the index the pointer has
reached.  The pointer only moves up and a dereference at `UINT16_MAX` or
beyond is outside the array, so `UINT16_MAX + 1 - c` rounds always suffice. -/
def puts_loop : Nat → Nat → VM → Option VM
  | 0, _, _ => none
  | fuel + 1, c, vm =>
    if c < UINT16_MAX then
      if vm.memory c ≠ 0 then
        puts_loop fuel (c + 1) (vm.putc (vm.memory c))
      else
        some vm
    else
      none

/-- The bytes of the prompt printed by case `TRAP_IN`. -/
def in_prompt : List Nat :=
  "Enter a character: ".toList.map Char.toNat

/-- Case `OP_TRAP` (vm.c:372). -/
def op_TRAP (instr : Nat) (vm : VM) : Option VM :=
  let v := instr &&& 0xFF
  if v = TRAP_GETC then
    let g := getchar vm
    some (g.2.setReg R_R0 (toU16 g.1))
  else if v = TRAP_OUT then
    some (vm.putc (vm.registers R_R0))
  else if v = TRAP_PUTS then
    puts_loop (UINT16_MAX + 1 - vm.registers R_R0) (vm.registers R_R0) vm
  else if v = TRAP_IN then
    let vm1 := { vm with stdout := vm.stdout ++ in_prompt }
    let g := getchar vm1
    let c := toChar g.1
    some ((g.2.putc (toU16 c)).setReg R_R0 (toU16 c))
  else if v = TRAP_PUTSP then
    some vm
  else if v = TRAP_HALT then
    some vm
  else
    some vm

/-! ## The fetch-execute loop of `main` -/

/-- Fetch stage (vm.c:216): `instr = mem_read(registers[R_PC]++)`. -/
def fetch (vm : VM) : Option (Nat × VM) :=
  let pc := vm.registers R_PC
  mem_read pc (vm.setReg R_PC ((pc + 1) % 65536))

/-- The `switch (op)` of `main` (vm.c:219). -/
def execute (instr : Nat) (vm : VM) : Option VM :=
  let op := instr >>> 12
  if op = OP_ADD then some (op_ADD instr vm)
  else if op = OP_AND then some (op_AND instr vm)
  else if op = OP_NOT then some (op_NOT instr vm)
  else if op = OP_BR then some (op_BR instr vm)
  else if op = OP_JMP then some (op_JMP instr vm)
  else if op = OP_JSR then some (op_JSR instr vm)
  else if op = OP_LD then op_LD instr vm
  else if op = OP_LDI then op_LDI instr vm
  else if op = OP_LDR then op_LDR instr vm
  else if op = OP_LEA then some (op_LEA instr vm)
  else if op = OP_ST then op_ST instr vm
  else if op = OP_STI then op_STI instr vm
  else if op = OP_STR then op_STR instr vm
  else if op = OP_TRAP then op_TRAP instr vm
  else some vm

/-- One iteration of the body of `while (running)` (vm.c:213). -/
def step (vm : VM) : Option VM :=
  (fetch vm).bind fun p => execute p.1 p.2

/-- The loop `while (running)` of `main`, for at most `fuel` iterations. -/
def run : Nat → VM → Option VM
  | 0, vm => some vm
  | fuel + 1, vm =>
    if vm.running ≠ 0 then (step vm).bind (run fuel) else some vm

/-- The state in which `main` enters the loop: `registers[R_PC] = PC_START`,
`running = 1`; other registers are zero-initialised globals. -/
def initial (memory : Nat → Nat) (kbhit : List Bool) (stdin : List Nat) : VM :=
  { memory := memory
    registers := fun i => if i = R_PC then PC_START else 0
    running := 1
    kbhit := kbhit
    stdin := stdin
    stdout := [] }

/-! ## Specification-side notions -/

/-- The value of the `n`-bit field `x` read as a two's-complement number. -/
def signedValue (n x : Nat) : Int :=
  if x < 2 ^ (n - 1) then (x : Int) else (x : Int) - ((2 ^ n : Nat) : Int)

/-- The 16-bit word that represents the `n`-bit two's-complement field `x`. -/
def sext (n x : Nat) : Nat :=
  if x < 2 ^ (n - 1) then x else x + (65536 - 2 ^ n)

/-- The field of `instr` made of bits `hi` down to `lo`. -/
def bits (instr hi lo : Nat) : Nat :=
  (instr / 2 ^ lo) % 2 ^ (hi + 1 - lo)

/-- The condition flag that describes the 16-bit word `v`. -/
def flagOf (v : Nat) : Nat :=
  if v = 0 then FL_ZRO else if v.testBit 15 then FL_NEG else FL_POS


/-- What the specification says about COND after a flag update of register `r`. -/
def FlagsMatch (vm : VM) (r : Nat) : Prop :=
  (vm.registers R_COND = FL_POS ∨ vm.registers R_COND = FL_ZRO ∨
      vm.registers R_COND = FL_NEG) ∧
    (vm.registers R_COND = FL_ZRO ↔ vm.registers r = 0) ∧
    (vm.registers R_COND = FL_NEG ↔ (vm.registers r).testBit 15 = true) ∧
    (vm.registers R_COND = FL_POS ↔
      vm.registers r ≠ 0 ∧ (vm.registers r).testBit 15 = false)

/-! ## Concrete states -/

/-- A state with the given memory and registers, `running = 1`, no pending key, no
input and nothing written yet. -/
def mkState (memory registers : Nat → Nat) : VM :=
  { memory := memory, registers := registers, running := 1,
    kbhit := [], stdin := [], stdout := [] }

/-- State with `ADD R0, R1, #-3` at `0x3000`, with R1 = 5. -/
def addState : VM :=
  mkState (fun a => if a = 0x3000 then 0x107D else 0)
    (fun r => if r = R_PC then 0x3000 else if r = R_R1 then 5 else 0)

/-- State with `LD R1, #1` at `0x3000`, with the word `0x8001` at `0x3002`. -/
def ldState : VM :=
  mkState (fun a => if a = 0x3000 then 0x2201 else if a = 0x3002 then 0x8001 else 0)
    (fun r => if r = R_PC then 0x3000 else 0)

/-- State with `BRz #1` at `0x3000`, with COND = ZERO. -/
def brState : VM :=
  mkState (fun a => if a = 0x3000 then 0x0401 else 0)
    (fun r => if r = R_PC then 0x3000 else if r = R_COND then FL_ZRO else 0)

/-- State with `LDI R0, #1` at `0x3000`; address `0x3002` holds the pointer `0x4000`, and
address `0x4000` holds 7. -/
def ldiState : VM :=
  mkState
    (fun a => if a = 0x3000 then 0xA001 else if a = 0x3002 then 0x4000
      else if a = 0x4000 then 7 else 0)
    (fun r => if r = R_PC then 0x3000 else 0)

/-- State with `JSRR R2` at `0x3000`, with R2 = `0x5000`. -/
def jsrrState : VM :=
  mkState (fun a => if a = 0x3000 then 0x4080 else 0)
    (fun r => if r = R_PC then 0x3000 else if r = R_R2 then 0x5000 else 0)

/-- State with `JSR #1` at `0x3000`. -/
def jsrState : VM :=
  mkState (fun a => if a = 0x3000 then 0x4801 else 0)
    (fun r => if r = R_PC then 0x3000 else 0)

/-- State with `JSR #-2` at `0x3000`. -/
def jsrBackState : VM :=
  mkState (fun a => if a = 0x3000 then 0x4FFE else 0)
    (fun r => if r = R_PC then 0x3000 else 0)

/-- State with `ST R0, #1` at `0x3000`, with R0 = 7 and R1 = 9. -/
def stState : VM :=
  mkState (fun a => if a = 0x3000 then 0x3001 else 0)
    (fun r => if r = R_PC then 0x3000 else if r = R_R0 then 7 else if r = R_R1 then 9 else 0)

/-- State with `STR R0, R1, #0` at `0x3000`, with R0 = 5 and R1 = `0x4000`. -/
def strState : VM :=
  mkState (fun a => if a = 0x3000 then 0x7040 else 0)
    (fun r => if r = R_PC then 0x3000 else if r = R_R0 then 5
      else if r = R_R1 then 0x4000 else 0)

/-- State with `STR R0, R0, #-1` at `0x3000`, with R0 = `0x4000`. -/
def strNegState : VM :=
  mkState (fun a => if a = 0x3000 then 0x703F else 0)
    (fun r => if r = R_PC then 0x3000 else if r = R_R0 then 0x4000 else 0)

/-- State with `TRAP x25` (HALT) at `0x3000`. -/
def haltState : VM :=
  mkState (fun a => if a = 0x3000 then 0xF025 else 0)
    (fun r => if r = R_PC then 0x3000 else 0)

/-! ## Image loader -/

/-- Library call `fread(p, sizeof(uint16_t), count, file)` on the remaining bytes of
the file: the complete 16-bit items it delivers, at most `count` of them, each
assembled in the byte order of the host (little-endian, first byte low). -/
def fread_words : Nat → List Nat → List Nat
  | 0, _ => []
  | _ + 1, [] => []
  | _ + 1, [_] => []
  | count + 1, b0 :: b1 :: rest =>
    (b0 % 256 + 256 * (b1 % 256)) :: fread_words count rest

/-- Whether that `fread` call ends on an incomplete item (a single trailing byte),
whose value in the array is then indeterminate. -/
def fread_torn : Nat → List Nat → Bool
  | 0, _ => false
  | _ + 1, [] => false
  | _ + 1, [_] => true
  | count + 1, _ :: _ :: rest => fread_torn count rest

/-- The stores that `fread` performs into `memory`, starting at index `p`. -/
def store_words : List Nat → Nat → VM → VM
  | [], _, vm => vm
  | w :: ws, p, vm => store_words ws (p + 1) (vm.setMem p w)

/-- The loop `while (read-- > 0)` of `read_image_file` (vm.c:118). -/
def swap_loop : Nat → Nat → VM → VM
  | 0, _, vm => vm
  | read + 1, p, vm => swap_loop read (p + 1) (vm.setMem p (swap16 (vm.memory p)))

/-- Function `read_image_file` (vm.c:107) applied to the bytes of the file.  No
result is defined when the file is too short to hold the origin, or when it ends
inside an item.  `fread` is limited to `max_read = UINT16_MAX - origin` items, so
every index touched is inside the array. -/
def read_image_file (file : List Nat) (vm : VM) : Option VM :=
  match file with
  | b0 :: b1 :: rest =>
    let origin := swap16 (b0 % 256 + 256 * (b1 % 256))
    let max_read := UINT16_MAX - origin
    let words := fread_words max_read rest
    if fread_torn max_read rest then none
    else some (swap_loop words.length origin (store_words words origin vm))
  | _ => none

/-! ## Further concrete states -/

/-- State with every memory word equal to 7 and all registers zero. -/
def sevenState : VM :=
  mkState (fun _ => 7) (fun _ => 0)

/-- State with `JSRR R7` at `0x3000`, with R7 = `0x5000`. -/
def jsrr7State : VM :=
  mkState (fun a => if a = 0x3000 then 0x41C0 else 0)
    (fun r => if r = R_PC then 0x3000 else if r = R_R7 then 0x5000 else 0)

/-- State with the reserved opcode word `0xD000` at `0x3000`. -/
def resState : VM :=
  mkState (fun a => if a = 0x3000 then 0xD000 else 0)
    (fun r => if r = R_PC then 0x3000 else if r = R_COND then FL_NEG else r + 1)

/-- State with `STI R2, #1` at `0x3000`, the pointer `0x4000` at `0x3002`, and
R2 = `0xBEEF`. -/
def stiState : VM :=
  mkState (fun a => if a = 0x3000 then 0xB401 else if a = 0x3002 then 0x4000 else 0)
    (fun r => if r = R_PC then 0x3000 else if r = R_R2 then 0xBEEF
      else if r = R_COND then FL_POS else 0)

/-- State with `LD R0, #1` at `0x3000` and the word 5 at `0x3002`. -/
def ldPlainState : VM :=
  mkState (fun a => if a = 0x3000 then 0x2001 else if a = 0x3002 then 5 else 0)
    (fun r => if r = R_PC then 0x3000 else 0)

/-- Memory with `ADD R0, R1, #-3` at `0x3000`. -/
def addMemory : Nat → Nat :=
  fun a => if a = 0x3000 then 0x107D else 0

/-- Predicate on states: COND is zero or one of the three flags. -/
def CondOK (vm : VM) : Prop :=
  vm.registers R_COND = 0 ∨ vm.registers R_COND = FL_POS ∨
    vm.registers R_COND = FL_ZRO ∨ vm.registers R_COND = FL_NEG

/-- State with `TRAP x22` (PUTS) at `0x3000`, R0 = `0x4000`, and the words 'H',
'I', 0 from `0x4000` on; the word after the terminator is non-zero. -/
def putsState : VM :=
  mkState
    (fun a => if a = 0x3000 then 0xF022 else if a = 0x4000 then 72
      else if a = 0x4001 then 73 else if a = 0x4003 then 33 else 0)
    (fun r => if r = R_PC then 0x3000 else if r = R_R0 then 0x4000 else 0)

/-- State with `TRAP x24` (PUTSP) at `0x3000`, R0 = `0x4000`, and the packed word
`0x4948` ('H' in the low byte, 'I' in the high byte) followed by a zero word. -/
def putspState : VM :=
  mkState (fun a => if a = 0x3000 then 0xF024 else if a = 0x4000 then 0x4948 else 0)
    (fun r => if r = R_PC then 0x3000 else if r = R_R0 then 0x4000 else 0)

/-- State with a key pending: the next poll answers yes and the next input byte is
'a' (97); the data register word holds 5. -/
def keyState : VM :=
  { memory := fun a => if a = MR_KBDR then 5 else 0
    registers := fun r => if r = R_PC then 0x3000 else 0
    running := 1, kbhit := [true], stdin := [97], stdout := [] }

/-- State with no key pending: the next poll answers no; the data register word
holds 5. -/
def noKeyState : VM :=
  { memory := fun a => if a = MR_KBDR then 5 else if a = MR_KBSR then 0x8000 else 0
    registers := fun r => if r = R_PC then 0x3000 else 0
    running := 1, kbhit := [false], stdin := [97], stdout := [] }

/-- State with `LDR R2, R3, #0` at `0x3000`, with R3 = `0x4000`; the word at
`0x4000` is zero. -/
def ldrState : VM :=
  mkState (fun a => if a = 0x3000 then 0x64C0 else 0)
    (fun r => if r = R_PC then 0x3000 else if r = R_R3 then 0x4000 else 0)

/-- Predicate on states: COND is exactly one of POSITIVE, ZERO, NEGATIVE. -/
def OneHot (vm : VM) : Prop :=
  vm.registers R_COND = FL_POS ∨ vm.registers R_COND = FL_ZRO ∨
    vm.registers R_COND = FL_NEG

/-- The opcode of `instr` is one whose case of the `switch` calls `update_flags`:
ADD, AND, NOT, LD, LDI, LDR or LEA. -/
def updatesFlags (instr : Nat) : Prop :=
  instr >>> 12 = OP_ADD ∨ instr >>> 12 = OP_AND ∨ instr >>> 12 = OP_NOT ∨
    instr >>> 12 = OP_LD ∨ instr >>> 12 = OP_LDI ∨ instr >>> 12 = OP_LDR ∨
    instr >>> 12 = OP_LEA

/-! ## Sign extension -/

theorem sign_bit_ne_zero_iff (n x : Nat) (hn1 : 1 ≤ n) (hx : x < 2 ^ n) :
    ((x >>> (n - 1)) &&& 1) ≠ 0 ↔ 2 ^ (n - 1) ≤ x := by
  have hpos : 0 < 2 ^ (n - 1) := Nat.two_pow_pos _
  have h2 : 2 ^ n = 2 ^ (n - 1) * 2 := by
    rw [← Nat.pow_succ]; congr 1; omega
  have hlt : x / 2 ^ (n - 1) < 2 := by
    rw [Nat.div_lt_iff_lt_mul hpos]; omega
  rw [Nat.shiftRight_eq_div_pow, Nat.and_one_is_mod]
  constructor
  · intro h
    by_contra hc
    have : x / 2 ^ (n - 1) = 0 := Nat.div_eq_of_lt (by omega)
    omega
  · intro h
    have : 0 < x / 2 ^ (n - 1) := Nat.div_pos h hpos
    omega

theorem or_shift_mask (n x : Nat) (hn : n ≤ 16) (hx : x < 2 ^ n) :
    (x ||| (0xFFFF <<< n)) % 65536 = x + (65536 - 2 ^ n) := by
  rw [Nat.shiftLeft_eq, Nat.or_comm, Nat.mul_comm, ← Nat.mul_add_lt_is_or hx]
  interval_cases n <;> norm_num at hx ⊢ <;> omega

theorem sign_extend_eq_sext (n x : Nat) (hn1 : 1 ≤ n) (hn : n ≤ 16) (hx : x < 2 ^ n) :
    sign_extend x n = sext n x := by
  unfold sign_extend sext
  by_cases h : 2 ^ (n - 1) ≤ x
  · rw [if_pos ((sign_bit_ne_zero_iff n x hn1 hx).2 h), if_neg (by omega), or_shift_mask n x hn hx]
  · rw [if_neg (fun hc => h ((sign_bit_ne_zero_iff n x hn1 hx).1 hc)), if_pos (by omega)]

theorem sext_arith (n x : Nat) (hn1 : 1 ≤ n) (hn : n ≤ 16) (hx : x < 2 ^ n) :
    signedValue 16 (sext n x) = signedValue n x ∧ sext n x < 65536 ∧ sext n x % 2 ^ n = x := by
  have hpos : 0 < 2 ^ (n - 1) := Nat.two_pow_pos _
  have h2 : 2 ^ n = 2 ^ (n - 1) * 2 := by
    rw [← Nat.pow_succ]; congr 1; omega
  have hle : 2 ^ (n - 1) ≤ 2 ^ 15 := Nat.pow_le_pow_right (by decide) (by omega)
  obtain ⟨k, hk⟩ : 2 ^ n ∣ 2 ^ 16 := Nat.pow_dvd_pow 2 hn
  have hkpos : 0 < k := by
    rcases Nat.eq_zero_or_pos k with h | h
    · subst h; simp at hk
    · exact h
  have hmod : ∀ y, y < 2 ^ n → (y + (65536 - 2 ^ n)) % 2 ^ n = y := by
    intro y hy
    have h1 : 2 ^ n * (k - 1) = 2 ^ n * k - 2 ^ n := by rw [Nat.mul_sub, Nat.mul_one]
    have h3 : y + (65536 - 2 ^ n) = y + 2 ^ n * (k - 1) := by
      rw [h1, ← hk]
    rw [h3, Nat.add_mul_mod_self_left]
    exact Nat.mod_eq_of_lt hy
  have h16 : (2 : Nat) ^ (16 - 1) = 32768 := by norm_num
  have h16b : (2 : Nat) ^ 16 = 65536 := by norm_num
  have h15 : (2 : Nat) ^ 15 = 32768 := by norm_num
  unfold sext signedValue
  rw [h16, h16b]
  by_cases h : x < 2 ^ (n - 1)
  · simp only [if_pos h]
    refine ⟨?_, by omega, Nat.mod_eq_of_lt hx⟩
    rw [if_pos (by omega)]
  · simp only [if_neg h]
    have hqk : 2 ^ n ≤ 2 ^ n * k := Nat.le_mul_of_pos_right _ hkpos
    refine ⟨?_, by omega, hmod x hx⟩
    rw [if_neg (by omega)]
    omega

theorem sign_extend_high_bits (n x i : Nat) (hn1 : 1 ≤ n) (hx : x < 2 ^ n)
    (hni : n ≤ i) (hi : i < 16) :
    (sign_extend x n).testBit i = x.testBit (n - 1) := by
  have hxi : x.testBit i = false :=
    Nat.testBit_lt_two_pow (Nat.lt_of_lt_of_le hx (Nat.pow_le_pow_right (by decide) hni))
  have h65 : (65535 : Nat) = 2 ^ 16 - 1 := by norm_num
  unfold sign_extend
  by_cases h : ((x >>> (n - 1)) &&& 1) ≠ 0
  · have hb : x.testBit (n - 1) = true := by
      unfold Nat.testBit
      rw [Nat.and_comm]
      simpa using h
    rw [if_pos h, hb]
    have h6 : (65536 : Nat) = 2 ^ 16 := by norm_num
    rw [h6, Nat.testBit_mod_two_pow, Nat.testBit_or, Nat.testBit_shiftLeft, h65,
      Nat.testBit_two_pow_sub_one]
    simp [hi, hni]
    omega
  · have hb : x.testBit (n - 1) = false := by
      unfold Nat.testBit
      rw [Nat.and_comm]
      simpa using h
    rw [if_neg h, hb, hxi]

/-- C3. For 1 ≤ n ≤ 16 and x < 2^n, `sign_extend x n` read as a 16-bit two's-complement
number equals x read as an n-bit two's-complement number; the result is a 16-bit
word whose low n bits are those of x and whose bits n..15 all equal bit n-1 of x. -/
theorem sign_extend_spec (n x : Nat) (hn1 : 1 ≤ n) (hn : n ≤ 16) (hx : x < 2 ^ n) :
    signedValue 16 (sign_extend x n) = signedValue n x ∧
    sign_extend x n < 65536 ∧
    sign_extend x n % 2 ^ n = x ∧
    ∀ i, n ≤ i → i < 16 → (sign_extend x n).testBit i = x.testBit (n - 1) := by
  refine ⟨?_, ?_, ?_, fun i hni hi => sign_extend_high_bits n x i hn1 hx hni hi⟩
  · rw [sign_extend_eq_sext n x hn1 hn hx]; exact (sext_arith n x hn1 hn hx).1
  · rw [sign_extend_eq_sext n x hn1 hn hx]; exact (sext_arith n x hn1 hn hx).2.1
  · rw [sign_extend_eq_sext n x hn1 hn hx]; exact (sext_arith n x hn1 hn hx).2.2

theorem sign_extend_spec_witness :
    signedValue 16 (sign_extend 0x1D 5) = signedValue 5 0x1D ∧
    sign_extend 0x1D 5 < 65536 ∧
    sign_extend 0x1D 5 % 2 ^ 5 = 0x1D ∧
    (sign_extend 0x1D 5).testBit 9 = (0x1D).testBit (5 - 1) := by
  obtain ⟨h1, h2, h3, h4⟩ := sign_extend_spec 5 0x1D (by decide) (by decide) (by decide)
  exact ⟨h1, h2, h3, h4 9 (by decide) (by decide)⟩

/-! ## Field extraction -/

theorem and_1 (x : Nat) : x &&& 1 = x % 2 := Nat.and_one_is_mod x
theorem and_7 (x : Nat) : x &&& 7 = x % 8 := Nat.and_pow_two_sub_one_eq_mod x 3
theorem and_1F (x : Nat) : x &&& 0x1F = x % 32 := Nat.and_pow_two_sub_one_eq_mod x 5
theorem and_3F (x : Nat) : x &&& 0x3F = x % 64 := Nat.and_pow_two_sub_one_eq_mod x 6
theorem and_FF (x : Nat) : x &&& 0xFF = x % 256 := Nat.and_pow_two_sub_one_eq_mod x 8
theorem and_1FF (x : Nat) : x &&& 0x1FF = x % 512 := Nat.and_pow_two_sub_one_eq_mod x 9
theorem and_7FF (x : Nat) : x &&& 0x7FF = x % 2048 := Nat.and_pow_two_sub_one_eq_mod x 11
theorem and_7FFF (x : Nat) : x &&& 0x7FFF = x % 32768 := Nat.and_pow_two_sub_one_eq_mod x 15

theorem field_11_9 (instr : Nat) : (instr >>> 9) &&& 0x7 = bits instr 11 9 := by
  rw [and_7, Nat.shiftRight_eq_div_pow]; rfl

theorem field_8_6 (instr : Nat) : (instr >>> 6) &&& 0x7 = bits instr 8 6 := by
  rw [and_7, Nat.shiftRight_eq_div_pow]; rfl

theorem field_5_5 (instr : Nat) : (instr >>> 5) &&& 0x1 = bits instr 5 5 := by
  rw [and_1, Nat.shiftRight_eq_div_pow]; rfl

theorem field_11_11 (instr : Nat) : (instr >>> 11) &&& 0x1 = bits instr 11 11 := by
  rw [and_1, Nat.shiftRight_eq_div_pow]; rfl

theorem field_2_0 (instr : Nat) : instr &&& 0x7 = bits instr 2 0 := by
  rw [and_7]; simp [bits]

theorem field_4_0 (instr : Nat) : instr &&& 0x1F = bits instr 4 0 := by
  rw [and_1F]; simp [bits]

theorem field_5_0 (instr : Nat) : instr &&& 0x3F = bits instr 5 0 := by
  rw [and_3F]; simp [bits]

theorem field_7_0 (instr : Nat) : instr &&& 0xFF = bits instr 7 0 := by
  rw [and_FF]; simp [bits]

theorem field_8_0 (instr : Nat) : instr &&& 0x1FF = bits instr 8 0 := by
  rw [and_1FF]; simp [bits]

theorem bits_lt (instr hi lo : Nat) : bits instr hi lo < 2 ^ (hi + 1 - lo) :=
  Nat.mod_lt _ (Nat.two_pow_pos _)

/-! ## Memory access and the fetch stage -/

theorem toU16_lt (i : Int) : toU16 i < 65536 := by
  unfold toU16; omega

theorem check_key_frame (vm : VM) :
    (check_key vm).2.memory = vm.memory ∧ (check_key vm).2.registers = vm.registers ∧
      (check_key vm).2.running = vm.running ∧ (check_key vm).2.stdout = vm.stdout ∧
      (check_key vm).2.stdin = vm.stdin := by
  unfold check_key
  split <;> exact ⟨rfl, rfl, rfl, rfl, rfl⟩

theorem getchar_frame (vm : VM) :
    (getchar vm).2.memory = vm.memory ∧ (getchar vm).2.registers = vm.registers ∧
      (getchar vm).2.running = vm.running ∧ (getchar vm).2.stdout = vm.stdout ∧
      (getchar vm).2.kbhit = vm.kbhit := by
  unfold getchar
  split <;> exact ⟨rfl, rfl, rfl, rfl, rfl⟩

/-- The state in which `mem_read` performs its final array access. -/
theorem mem_read_eq (a : Nat) (vm : VM) :
    mem_read a vm =
      if a < UINT16_MAX then
        if a = MR_KBSR then
          if (check_key vm).1 = true then
            some (1 <<< 15, (getchar ((check_key vm).2.setMem MR_KBSR (1 <<< 15))).2.setMem
              MR_KBDR (toU16 (getchar ((check_key vm).2.setMem MR_KBSR (1 <<< 15))).1))
          else some (0, (check_key vm).2.setMem MR_KBSR 0)
        else some (vm.memory a, vm)
      else none := by
  unfold mem_read
  by_cases hlt : a < UINT16_MAX
  · by_cases ha : a = MR_KBSR
    · by_cases hk : (check_key vm).1 = true
      · simp only [if_pos hlt, if_pos ha, if_pos hk]
        subst ha
        simp [VM.setMem, (getchar_frame _).1]
      · simp only [if_pos hlt, if_pos ha, if_neg hk]
        subst ha
        simp [VM.setMem]
    · simp only [if_pos hlt, if_neg ha]
  · simp only [if_neg hlt]

theorem mem_read_some (a v : Nat) (vm vm1 : VM) (h : mem_read a vm = some (v, vm1)) :
    a < UINT16_MAX ∧ v = vm1.memory a ∧ vm1.registers = vm.registers ∧
      vm1.running = vm.running ∧ vm1.stdout = vm.stdout := by
  rw [mem_read_eq] at h
  by_cases hlt : a < UINT16_MAX
  · rw [if_pos hlt] at h
    by_cases ha : a = MR_KBSR
    · rw [if_pos ha] at h
      subst ha
      by_cases hk : (check_key vm).1 = true
      · rw [if_pos hk] at h
        simp only [Option.some.injEq, Prod.mk.injEq] at h
        obtain ⟨h1, h2⟩ := h
        subst h1 h2
        refine ⟨hlt, ?_, ?_, ?_, ?_⟩
        · simp [VM.setMem, (getchar_frame _).1]
        · simp [VM.setMem, (getchar_frame _).2.1, (check_key_frame _).2.1]
        · simp [VM.setMem, (getchar_frame _).2.2.1, (check_key_frame _).2.2.1]
        · simp [VM.setMem, (getchar_frame _).2.2.2.1, (check_key_frame _).2.2.2.1]
      · rw [if_neg hk] at h
        simp only [Option.some.injEq, Prod.mk.injEq] at h
        obtain ⟨h1, h2⟩ := h
        subst h1 h2
        refine ⟨hlt, ?_, ?_, ?_, ?_⟩
        · simp [VM.setMem]
        · simp [VM.setMem, (check_key_frame _).2.1]
        · simp [VM.setMem, (check_key_frame _).2.2.1]
        · simp [VM.setMem, (check_key_frame _).2.2.2.1]
    · rw [if_neg ha] at h
      simp only [Option.some.injEq, Prod.mk.injEq] at h
      obtain ⟨h1, h2⟩ := h
      subst h1 h2
      exact ⟨hlt, rfl, rfl, rfl, rfl⟩
  · rw [if_neg hlt] at h
    exact absurd h (by simp)

theorem mem_read_plain (a : Nat) (vm : VM) (ha : a ≠ MR_KBSR) (hlt : a < UINT16_MAX) :
    mem_read a vm = some (vm.memory a, vm) := by
  rw [mem_read_eq, if_pos hlt, if_neg ha]

theorem mem_read_wf (a v : Nat) (vm vm1 : VM) (hwf : WF vm)
    (h : mem_read a vm = some (v, vm1)) : WF vm1 ∧ v < 65536 := by
  have hs := mem_read_some a v vm vm1 h
  have hregs : ∀ r, vm1.registers r < 65536 := fun r => by rw [hs.2.2.1]; exact hwf.2 r
  rw [mem_read_eq, if_pos hs.1] at h
  have hw : WF vm1 := by
    refine ⟨?_, hregs⟩
    intro b
    have hb := hwf.1 b
    by_cases ha : a = MR_KBSR
    · rw [if_pos ha] at h
      by_cases hk : (check_key vm).1 = true
      · rw [if_pos hk] at h
        simp only [Option.some.injEq, Prod.mk.injEq] at h
        rw [← h.2]
        simp only [VM.setMem, (getchar_frame _).1, (check_key_frame _).1]
        split_ifs
        · exact toU16_lt _
        · decide
        · exact hb
      · rw [if_neg hk] at h
        simp only [Option.some.injEq, Prod.mk.injEq] at h
        rw [← h.2]
        simp only [VM.setMem, (check_key_frame _).1]
        split_ifs
        · decide
        · exact hb
    · rw [if_neg ha] at h
      simp only [Option.some.injEq, Prod.mk.injEq] at h
      rw [← h.2]; exact hb
  exact ⟨hw, by rw [hs.2.1]; exact hw.1 a⟩

theorem fetch_some (vm vm1 : VM) (instr : Nat) (h : fetch vm = some (instr, vm1)) :
    vm.registers R_PC < UINT16_MAX ∧ instr = vm1.memory (vm.registers R_PC) ∧
      vm1.registers R_PC = (vm.registers R_PC + 1) % 65536 ∧
      (∀ r, r ≠ R_PC → vm1.registers r = vm.registers r) ∧
      vm1.running = vm.running ∧ vm1.stdout = vm.stdout := by
  unfold fetch at h
  obtain ⟨h1, h2, h3, h4, h5⟩ := mem_read_some _ _ _ _ h
  refine ⟨h1, h2, ?_, ?_, ?_, ?_⟩
  · rw [h3]; simp [VM.setReg]
  · intro r hr; rw [h3]; simp [VM.setReg, hr]
  · rw [h4]; rfl
  · rw [h5]; rfl

theorem fetch_wf (vm vm1 : VM) (instr : Nat) (hwf : WF vm)
    (h : fetch vm = some (instr, vm1)) : WF vm1 ∧ instr < 65536 := by
  unfold fetch at h
  refine mem_read_wf _ _ _ _ ?_ h
  refine ⟨hwf.1, fun r => ?_⟩
  have := hwf.2 r
  simp only [VM.setReg]
  split_ifs
  · exact Nat.mod_lt _ (by decide)
  · exact this

theorem step_of_fetch (vm vm1 : VM) (instr : Nat) (h : fetch vm = some (instr, vm1)) :
    step vm = execute instr vm1 := by
  simp [step, h]

/-! ## Condition flags -/

theorem shr15_ne_zero_iff (v : Nat) (hv : v < 65536) : v >>> 15 ≠ 0 ↔ v.testBit 15 = true := by
  rw [Nat.shiftRight_eq_div_pow, Nat.testBit_to_div_mod, decide_eq_true_iff]
  have h15 : (2 : Nat) ^ 15 = 32768 := by norm_num
  rw [h15]
  omega

theorem update_flags_frame (r : Nat) (vm : VM) :
    (∀ i, i ≠ R_COND → (update_flags r vm).registers i = vm.registers i) ∧
      (update_flags r vm).memory = vm.memory ∧ (update_flags r vm).running = vm.running ∧
      (update_flags r vm).stdout = vm.stdout := by
  unfold update_flags
  split_ifs <;> exact ⟨fun i hi => by simp [VM.setReg, hi], rfl, rfl, rfl⟩

theorem update_flags_cond (r : Nat) (vm : VM) (hv : vm.registers r < 65536) :
    (update_flags r vm).registers R_COND = flagOf (vm.registers r) := by
  unfold update_flags flagOf
  by_cases h0 : vm.registers r = 0
  · simp [h0, VM.setReg]
  · rw [if_neg h0, if_neg h0]
    by_cases hb : (vm.registers r).testBit 15 = true
    · rw [if_pos ((shr15_ne_zero_iff _ hv).2 hb), if_pos hb]; simp [VM.setReg]
    · rw [if_neg (fun h => hb ((shr15_ne_zero_iff _ hv).1 h)), if_neg hb]; simp [VM.setReg]

theorem flagOf_cases (v : Nat) :
    (flagOf v = FL_POS ∨ flagOf v = FL_ZRO ∨ flagOf v = FL_NEG) ∧
      (flagOf v = FL_ZRO ↔ v = 0) ∧
      (flagOf v = FL_NEG ↔ v.testBit 15 = true) ∧
      (flagOf v = FL_POS ↔ v ≠ 0 ∧ v.testBit 15 = false) := by
  have hz : FL_ZRO = 2 := rfl
  have hn : FL_NEG = 4 := rfl
  have hp : FL_POS = 1 := rfl
  unfold flagOf
  rw [hz, hn, hp]
  by_cases h0 : v = 0
  · simp [h0]
  · by_cases hb : v.testBit 15 = true
    · simp [h0, hb]
    · simp [h0, hb]

theorem sign_extend_lt (x n : Nat) (hx : x < 65536) : sign_extend x n < 65536 := by
  unfold sign_extend
  split_ifs
  · exact Nat.mod_lt _ (by decide)
  · exact hx

/-! ## Arithmetic instructions -/

theorem execute_ADD (instr : Nat) (vm : VM) (hop : instr >>> 12 = OP_ADD) :
    execute instr vm = some (op_ADD instr vm) := by
  simp [execute, hop]

theorem sign_extend_imm5 (instr : Nat) :
    sign_extend (instr &&& 0x1F) 5 = sext 5 (bits instr 4 0) := by
  rw [field_4_0]
  exact sign_extend_eq_sext 5 _ (by decide) (by decide) (bits_lt instr 4 0)

/-- C1. One step on an ADD word (opcode 0001): the destination register (bits 11..9)
receives (old value of the register in bits 8..6 + operand) mod 2^16, the operand
being the old value of the register in bits 2..0 when bit 5 is clear and the
sign-extended 5-bit immediate otherwise; COND is then the flag of that new value.
With R1 = 5 and the word `ADD R0, R1, #-3` the result is R0 = 2, COND = POSITIVE. -/
theorem step_ADD (vm vm1 : VM) (instr : Nat)
    (hfetch : fetch vm = some (instr, vm1)) (hop : instr >>> 12 = OP_ADD) :
    ∃ vm2, step vm = some vm2 ∧
      vm2.registers (bits instr 11 9) =
        (vm.registers (bits instr 8 6) +
          (if bits instr 5 5 = 0 then vm.registers (bits instr 2 0)
           else sext 5 (bits instr 4 0))) % 65536 ∧
      vm2.registers R_COND = flagOf (vm2.registers (bits instr 11 9)) ∧
      (instr = 0x107D → vm.registers R_R1 = 5 →
        vm2.registers R_R0 = 2 ∧ vm2.registers R_COND = FL_POS) := by
  obtain ⟨-, -, -, hregs0, -, -⟩ := fetch_some vm vm1 instr hfetch
  have hregs : ∀ r, r < 8 → vm1.registers r = vm.registers r :=
    fun r hr => hregs0 r (show r ≠ 8 by omega)
  have h9 : bits instr 11 9 < 8 := bits_lt instr 11 9
  have h6 : bits instr 8 6 < 8 := bits_lt instr 8 6
  have h2 : bits instr 2 0 < 8 := bits_lt instr 2 0
  have hval : ∃ w : VM, op_ADD instr vm1 = update_flags (bits instr 11 9) w ∧
      w.registers (bits instr 11 9) =
        (vm.registers (bits instr 8 6) +
          (if bits instr 5 5 = 0 then vm.registers (bits instr 2 0)
           else sext 5 (bits instr 4 0))) % 65536 := by
    unfold op_ADD
    simp only [field_11_9, field_8_6, field_5_5, sign_extend_imm5]
    simp only [field_2_0]
    by_cases h5 : bits instr 5 5 = 0
    · refine ⟨_, rfl, ?_⟩
      simp [h5, VM.setReg, hregs _ h6, hregs _ h2]
    · refine ⟨_, rfl, ?_⟩
      simp [h5, VM.setReg, hregs _ h6]
  obtain ⟨w, hw, hwv⟩ := hval
  have hlt : w.registers (bits instr 11 9) < 65536 := by
    rw [hwv]; exact Nat.mod_lt _ (by decide)
  have hnew : (update_flags (bits instr 11 9) w).registers (bits instr 11 9) =
      w.registers (bits instr 11 9) :=
    (update_flags_frame _ w).1 _ (show bits instr 11 9 ≠ 9 by omega)
  have hcond := update_flags_cond (bits instr 11 9) w hlt
  refine ⟨op_ADD instr vm1, ?_, ?_, ?_, ?_⟩
  · rw [step_of_fetch vm vm1 instr hfetch, execute_ADD instr vm1 hop]
  · rw [hw, hnew, hwv]
  · rw [hw, hnew, hcond]
  · intro hi h1
    subst hi
    have e1 : bits 0x107D 11 9 = 0 := by decide
    have e2 : bits 0x107D 8 6 = 1 := by decide
    have e3 : bits 0x107D 5 5 = 1 := by decide
    have e4 : sext 5 (bits 0x107D 4 0) = 65533 := by decide
    rw [e1] at hw hnew hcond hwv
    rw [e2, e3, e4, h1, if_neg (by decide)] at hwv
    have e5 : (5 + 65533) % 65536 = 2 := by decide
    rw [e5] at hwv
    rw [hw]
    refine ⟨by rw [hnew, hwv], ?_⟩
    rw [hcond, hwv]; decide

theorem step_ADD_witness :
    ∃ vm2, step addState = some vm2 ∧ vm2.registers R_R0 = 2 ∧ vm2.registers R_COND = FL_POS := by
  obtain ⟨vm2, h1, _, _, h4⟩ := step_ADD addState _ 0x107D rfl (by decide)
  exact ⟨vm2, h1, h4 rfl rfl⟩


/-! ## Instructions that update the flags -/

theorem flagsMatch_update (r : Nat) (w : VM) (hr : r < 8) (hlt : w.registers r < 65536) :
    FlagsMatch (update_flags r w) r := by
  have hnew : (update_flags r w).registers r = w.registers r :=
    (update_flags_frame r w).1 r (show r ≠ 9 by omega)
  unfold FlagsMatch
  rw [hnew, update_flags_cond r w hlt]
  exact flagOf_cases _

theorem setReg_same (vm : VM) (r v : Nat) : (vm.setReg r v).registers r = v := by
  simp [VM.setReg]

theorem load_flags (r : Nat) (a : Nat) (vm vm2 : VM) (hr : r < 8) (hwf : WF vm)
    (h : (mem_read a vm).map (fun p => update_flags r (p.2.setReg r p.1)) = some vm2) :
    FlagsMatch vm2 r := by
  rw [Option.map_eq_some'] at h
  obtain ⟨⟨v, vm1⟩, hread, hvm2⟩ := h
  rw [← hvm2]
  refine flagsMatch_update r _ hr ?_
  rw [setReg_same]
  exact (mem_read_wf a v vm vm1 hwf hread).2

theorem op_AND_flags (instr : Nat) (vm : VM) (hwf : WF vm) :
    FlagsMatch (op_AND instr vm) (bits instr 11 9) := by
  unfold op_AND
  simp only [field_11_9]
  refine flagsMatch_update _ _ (bits_lt instr 11 9) ?_
  split_ifs
  · rw [setReg_same]
    exact Nat.lt_of_le_of_lt Nat.and_le_left (hwf.2 _)
  · rw [setReg_same]
    exact Nat.lt_of_le_of_lt Nat.and_le_left (hwf.2 _)

theorem op_ADD_flags (instr : Nat) (vm : VM) :
    FlagsMatch (op_ADD instr vm) (bits instr 11 9) := by
  unfold op_ADD
  simp only [field_11_9]
  refine flagsMatch_update _ _ (bits_lt instr 11 9) ?_
  split_ifs <;> rw [setReg_same] <;> exact Nat.mod_lt _ (by decide)

theorem op_NOT_flags (instr : Nat) (vm : VM) :
    FlagsMatch (op_NOT instr vm) (bits instr 11 9) := by
  unfold op_NOT
  simp only [field_11_9]
  refine flagsMatch_update _ _ (bits_lt instr 11 9) ?_
  rw [setReg_same]
  omega

theorem op_LEA_flags (instr : Nat) (vm : VM) :
    FlagsMatch (op_LEA instr vm) (bits instr 11 9) := by
  unfold op_LEA
  simp only [field_11_9]
  refine flagsMatch_update _ _ (bits_lt instr 11 9) ?_
  rw [setReg_same]
  exact Nat.mod_lt _ (by decide)

/-- Flags after a completed step on a flag-updating word, and completion of the
register-only instructions. -/
theorem flags_of_completed_step (vm vm1 : VM) (instr : Nat) (hwf : WF vm)
    (hfetch : fetch vm = some (instr, vm1))
    (hop : instr >>> 12 = OP_ADD ∨ instr >>> 12 = OP_AND ∨ instr >>> 12 = OP_NOT ∨
      instr >>> 12 = OP_LD ∨ instr >>> 12 = OP_LDI ∨ instr >>> 12 = OP_LDR ∨
      instr >>> 12 = OP_LEA) :
    (∀ vm2, step vm = some vm2 → FlagsMatch vm2 (bits instr 11 9)) ∧
      ((instr >>> 12 = OP_ADD ∨ instr >>> 12 = OP_AND ∨ instr >>> 12 = OP_NOT ∨
        instr >>> 12 = OP_LEA) → ∃ vm2, step vm = some vm2) := by
  have hwf1 : WF vm1 := (fetch_wf vm vm1 instr hwf hfetch).1
  rw [step_of_fetch vm vm1 instr hfetch]
  constructor
  · intro vm2 hstep
    rcases hop with h | h | h | h | h | h | h
    · simp [execute, h] at hstep
      rw [← hstep]; exact op_ADD_flags instr vm1
    · simp [execute, h] at hstep
      rw [← hstep]; exact op_AND_flags instr vm1 hwf1
    · simp [execute, h] at hstep
      rw [← hstep]; exact op_NOT_flags instr vm1
    · simp only [execute, h] at hstep
      simp only [OP_LD, OP_ADD, OP_AND, OP_NOT, OP_BR, OP_JMP, OP_JSR] at hstep
      simp only [reduceCtorEq, Nat.reduceEqDiff, if_false, if_true] at hstep
      unfold op_LD at hstep
      simp only [field_11_9] at hstep
      exact load_flags _ _ vm1 vm2 (bits_lt instr 11 9) hwf1 hstep
    · simp only [execute, h] at hstep
      simp only [OP_LD, OP_LDI, OP_ADD, OP_AND, OP_NOT, OP_BR, OP_JMP, OP_JSR] at hstep
      simp only [reduceCtorEq, Nat.reduceEqDiff, if_false, if_true] at hstep
      unfold op_LDI at hstep
      simp only [field_11_9] at hstep
      exact load_flags _ _ vm1 vm2 (bits_lt instr 11 9) hwf1 hstep
    · simp only [execute, h] at hstep
      simp only [OP_LD, OP_LDI, OP_LDR, OP_ADD, OP_AND, OP_NOT, OP_BR, OP_JMP, OP_JSR] at hstep
      simp only [reduceCtorEq, Nat.reduceEqDiff, if_false, if_true] at hstep
      unfold op_LDR at hstep
      simp only [field_11_9] at hstep
      exact load_flags _ _ vm1 vm2 (bits_lt instr 11 9) hwf1 hstep
    · simp [execute, h] at hstep
      rw [← hstep]; exact op_LEA_flags instr vm1
  · intro h
    rcases h with h | h | h | h <;> simp [execute, h]


theorem wf_mkState (memory registers : Nat → Nat) (hm : ∀ a, memory a < 65536)
    (hr : ∀ r, registers r < 65536) : WF (mkState memory registers) :=
  ⟨hm, hr⟩

/-! ## Subroutine call -/

/-- C6. One step on a word with opcode 0100, whether bit 11 is clear (JSRR) or set
(JSR): afterwards R7 holds the PC as it was after the fetch increment. -/
theorem step_JSR_R7 (vm vm1 : VM) (instr : Nat)
    (hfetch : fetch vm = some (instr, vm1)) (hop : instr >>> 12 = OP_JSR) :
    ∃ vm2, step vm = some vm2 ∧ vm2.registers R_R7 = (vm.registers R_PC + 1) % 65536 := by
  obtain ⟨-, -, hpc, -, -, -⟩ := fetch_some vm vm1 instr hfetch
  refine ⟨op_JSR instr vm1, ?_, ?_⟩
  · rw [step_of_fetch vm vm1 instr hfetch]
    simp [execute, hop]
  · unfold op_JSR
    simp only []
    split_ifs <;> simp [VM.setReg, hpc]

theorem step_JSR_R7_witness :
    (∃ vm2, step jsrrState = some vm2 ∧ vm2.registers R_R7 = 0x3001) ∧
      (∃ vm2, step jsrState = some vm2 ∧ vm2.registers R_R7 = 0x3001) :=
  ⟨step_JSR_R7 jsrrState _ 0x4080 rfl (by decide), step_JSR_R7 jsrState _ 0x4801 rfl (by decide)⟩

/-! ## Evaluations of the code where it departs from the specification -/

/-- C4. `BRz #1` with COND = ZERO: the mask and COND share the ZERO bit, yet the
step leaves PC at the incremented value `0x3001` instead of `0x3002`. -/
theorem step_BR_ignores_mask :
    bits 0x0401 11 9 = 2 ∧ (brState.registers R_COND &&& bits 0x0401 11 9) ≠ 0 ∧
      (0x3000 + 1 + sext 9 (bits 0x0401 8 0)) % 65536 = 0x3002 ∧
      fetch brState = some (0x0401, brState.setReg R_PC 0x3001) ∧
      (step brState).map (fun v => v.registers R_PC) = some 0x3001 := by
  refine ⟨by decide, by decide, by decide, rfl, by decide⟩

/-- C5. `LDI R0, #1` at `0x3000` with memory[0x3002] = 0x4000 and memory[0x4000] = 7:
the step loads the pointer `0x4000` into R0, not the word 7 it points to. -/
theorem step_LDI_single_read :
    (0x3000 + 1 + sext 9 (bits 0xA001 8 0)) % 65536 = 0x3002 ∧
      ldiState.memory 0x3002 = 0x4000 ∧ ldiState.memory 0x4000 = 7 ∧
      fetch ldiState = some (0xA001, ldiState.setReg R_PC 0x3001) ∧
      (step ldiState).map (fun v => v.registers R_R0) = some 0x4000 := by
  refine ⟨by decide, by decide, by decide, rfl, by decide⟩

/-- C7. `JSR #1` at `0x3000`: the step sets PC to `0x7802`, not to
`0x3001 + 1 = 0x3002`; the backward jump `JSR #-2` does reach `0x2FFF`. -/
theorem step_JSR_forward_offset :
    bits 0x4801 11 11 = 1 ∧ (0x3000 + 1 + sext 11 (bits 0x4801 10 0)) % 65536 = 0x3002 ∧
      fetch jsrState = some (0x4801, jsrState.setReg R_PC 0x3001) ∧
      (step jsrState).map (fun v => v.registers R_PC) = some 0x7802 ∧
      (step jsrBackState).map (fun v => v.registers R_PC) = some 0x2FFF := by
  refine ⟨by decide, by decide, rfl, by decide, by decide⟩

/-- C8. `ST R0, #1` at `0x3000` with R0 = 7 and R1 = 9: the step stores 9, the
value of R1, at `0x3002`, not the value 7 of the source register R0. -/
theorem step_ST_stores_R1 :
    bits 0x3001 11 9 = 0 ∧ (0x3000 + 1 + sext 9 (bits 0x3001 8 0)) % 65536 = 0x3002 ∧
      stState.registers 0 = 7 ∧
      fetch stState = some (0x3001, stState.setReg R_PC 0x3001) ∧
      (step stState).map (fun v => v.memory 0x3002) = some 9 := by
  refine ⟨by decide, by decide, by decide, rfl, by decide⟩

/-- C9. `STR R0, R1, #0` with R0 = 5 and R1 = 0x4000: the step writes 5 at address 5
(the source register serves as base) and leaves address `0x4000` untouched.
`STR R0, R0, #-1` with R0 = 0x4000 writes at `0x403F`, not at `0x3FFF`. -/
theorem step_STR_base_and_offset :
    bits 0x7040 11 9 = 0 ∧ bits 0x7040 8 6 = 1 ∧
      (strState.registers 1 + sext 6 (bits 0x7040 5 0)) % 65536 = 0x4000 ∧
      fetch strState = some (0x7040, strState.setReg R_PC 0x3001) ∧
      (step strState).map (fun v => (v.memory 0x4000, v.memory 5)) = some (0, 5) ∧
      (strNegState.registers 0 + sext 6 (bits 0x703F 5 0)) % 65536 = 0x3FFF ∧
      (step strNegState).map (fun v => (v.memory 0x3FFF, v.memory 0x403F)) =
        some (0, 0x4000) := by
  refine ⟨by decide, by decide, by decide, rfl, by decide, by decide, by decide⟩

/-- C10. `TRAP x25` at `0x3000`: after the step `running` is still 1, and the loop
goes on to fetch the words at `0x3001` and `0x3002`. -/
theorem step_HALT_keeps_running :
    fetch haltState = some (0xF025, haltState.setReg R_PC 0x3001) ∧
      bits 0xF025 7 0 = TRAP_HALT ∧
      (step haltState).map (fun v => v.running) = some 1 ∧
      (run 3 haltState).map (fun v => (v.running, v.registers R_PC)) = some (1, 0x3003) := by
  refine ⟨rfl, by decide, by decide, by decide⟩


/-! ## The `running` variable -/

theorem puts_loop_running (fuel : Nat) : ∀ (c : Nat) (vm vm2 : VM),
    puts_loop fuel c vm = some vm2 → vm2.running = vm.running := by
  induction fuel with
  | zero => intro c vm vm2 h; simp [puts_loop] at h
  | succ n ih =>
    intro c vm vm2 h
    unfold puts_loop at h
    split_ifs at h with h1 h2
    · exact (ih _ _ _ h).trans rfl
    · simp only [Option.some.injEq] at h; rw [← h]

theorem update_flags_running (r : Nat) (vm : VM) :
    (update_flags r vm).running = vm.running :=
  (update_flags_frame r vm).2.2.1

theorem load_running (r a : Nat) (vm vm2 : VM)
    (h : (mem_read a vm).map (fun p => update_flags r (p.2.setReg r p.1)) = some vm2) :
    vm2.running = vm.running := by
  rw [Option.map_eq_some'] at h
  obtain ⟨⟨v, vm1⟩, hread, hvm2⟩ := h
  rw [← hvm2, update_flags_running]
  exact (mem_read_some a v vm vm1 hread).2.2.2.1

theorem mem_write_running (a v : Nat) (vm vm2 : VM) (h : mem_write a v vm = some vm2) :
    vm2.running = vm.running := by
  unfold mem_write at h
  split_ifs at h
  simp only [Option.some.injEq] at h
  rw [← h]; rfl

theorem op_TRAP_running (instr : Nat) (vm vm2 : VM) (h : op_TRAP instr vm = some vm2) :
    vm2.running = vm.running := by
  unfold op_TRAP at h
  dsimp only at h
  generalize instr &&& 0xFF = v at h
  split_ifs at h
  · simp only [Option.some.injEq] at h
    rw [← h]; exact (getchar_frame vm).2.2.1
  · simp only [Option.some.injEq] at h
    rw [← h]; rfl
  · exact puts_loop_running _ _ _ _ h
  · simp only [Option.some.injEq] at h
    rw [← h]; exact (getchar_frame _).2.2.1
  · simp only [Option.some.injEq] at h; rw [← h]
  · simp only [Option.some.injEq] at h; rw [← h]
  · simp only [Option.some.injEq] at h; rw [← h]

theorem ite_cases {α : Type} (P : α → Prop) (c : Prop) [Decidable c] (a b : α)
    (ha : P a) (hb : P b) : P (if c then a else b) := by
  split_ifs
  · exact ha
  · exact hb

/-- A property holds of the outcome of `execute` as soon as it holds of the outcome
of every case of the `switch`. -/
theorem execute_cases (P : Option VM → Prop) (instr : Nat) (vm : VM)
    (hreg : ∀ f : Nat → VM → VM, f = op_ADD ∨ f = op_AND ∨ f = op_NOT ∨ f = op_BR ∨
      f = op_JMP ∨ f = op_JSR ∨ f = op_LEA → P (some (f instr vm)))
    (hmem : ∀ f : Nat → VM → Option VM, f = op_LD ∨ f = op_LDI ∨ f = op_LDR ∨ f = op_ST ∨
      f = op_STI ∨ f = op_STR ∨ f = op_TRAP → P (f instr vm))
    (hnop : P (some vm)) : P (execute instr vm) := by
  unfold execute
  dsimp only
  refine ite_cases P _ _ _ (hreg _ (Or.inl rfl)) ?_
  refine ite_cases P _ _ _ (hreg _ (Or.inr (Or.inl rfl))) ?_
  refine ite_cases P _ _ _ (hreg _ (Or.inr (Or.inr (Or.inl rfl)))) ?_
  refine ite_cases P _ _ _ (hreg _ (Or.inr (Or.inr (Or.inr (Or.inl rfl))))) ?_
  refine ite_cases P _ _ _ (hreg _ (Or.inr (Or.inr (Or.inr (Or.inr (Or.inl rfl)))))) ?_
  refine ite_cases P _ _ _
    (hreg _ (Or.inr (Or.inr (Or.inr (Or.inr (Or.inr (Or.inl rfl))))))) ?_
  refine ite_cases P _ _ _ (hmem _ (Or.inl rfl)) ?_
  refine ite_cases P _ _ _ (hmem _ (Or.inr (Or.inl rfl))) ?_
  refine ite_cases P _ _ _ (hmem _ (Or.inr (Or.inr (Or.inl rfl)))) ?_
  refine ite_cases P _ _ _
    (hreg _ (Or.inr (Or.inr (Or.inr (Or.inr (Or.inr (Or.inr rfl))))))) ?_
  refine ite_cases P _ _ _ (hmem _ (Or.inr (Or.inr (Or.inr (Or.inl rfl))))) ?_
  refine ite_cases P _ _ _ (hmem _ (Or.inr (Or.inr (Or.inr (Or.inr (Or.inl rfl)))))) ?_
  refine ite_cases P _ _ _
    (hmem _ (Or.inr (Or.inr (Or.inr (Or.inr (Or.inr (Or.inl rfl))))))) ?_
  exact ite_cases P _ _ _
    (hmem _ (Or.inr (Or.inr (Or.inr (Or.inr (Or.inr (Or.inr rfl))))))) hnop

theorem op_STI_running (instr : Nat) (vm vm2 : VM) (h : op_STI instr vm = some vm2) :
    vm2.running = vm.running := by
  unfold op_STI at h
  simp only [Option.bind_eq_some] at h
  obtain ⟨⟨v, vm1⟩, hread, hw⟩ := h
  rw [mem_write_running _ _ _ _ hw]
  exact (mem_read_some _ v vm vm1 hread).2.2.2.1

theorem execute_running (instr : Nat) (vm vm2 : VM) (h : execute instr vm = some vm2) :
    vm2.running = vm.running := by
  revert h
  refine execute_cases (fun o => o = some vm2 → vm2.running = vm.running) instr vm ?_ ?_ ?_
  · intro f hf h
    simp only [Option.some.injEq] at h
    rw [← h]
    rcases hf with rfl | rfl | rfl | rfl | rfl | rfl | rfl
    · unfold op_ADD; dsimp only; rw [update_flags_running]; split_ifs <;> rfl
    · unfold op_AND; dsimp only; rw [update_flags_running]; split_ifs <;> rfl
    · exact update_flags_running _ _
    · unfold op_BR; dsimp only; split_ifs <;> rfl
    · rfl
    · unfold op_JSR; dsimp only; split_ifs <;> rfl
    · exact update_flags_running _ _
  · intro f hf h
    rcases hf with rfl | rfl | rfl | rfl | rfl | rfl | rfl
    · exact load_running _ _ _ _ h
    · exact load_running _ _ _ _ h
    · exact load_running _ _ _ _ h
    · exact mem_write_running _ _ _ _ h
    · exact op_STI_running _ _ _ h
    · exact mem_write_running _ _ _ _ h
    · exact op_TRAP_running _ _ _ h
  · intro h
    simp only [Option.some.injEq] at h
    rw [← h]

/-- No iteration of the loop body changes `running`: no case of the `switch`,
`TRAP_HALT` included, assigns to it. -/
theorem step_running (vm vm2 : VM) (h : step vm = some vm2) : vm2.running = vm.running := by
  unfold step at h
  simp only [Option.bind_eq_some] at h
  obtain ⟨⟨instr, vm1⟩, hfetch, hexec⟩ := h
  rw [execute_running instr vm1 vm2 hexec]
  exact (fetch_some vm vm1 instr hfetch).2.2.2.2.1

/-! ## What the code does in the cases that depart from the specification -/

/-- The branch of `OP_BR` is taken exactly when the mask field is non-zero and
COND has its lowest bit (POSITIVE) set. -/
theorem op_BR_code (instr : Nat) (vm : VM) (hop : instr >>> 12 = OP_BR) :
    (op_BR instr vm).registers R_PC =
      if bits instr 11 9 ≠ 0 ∧ vm.registers R_COND % 2 = 1 then
        (vm.registers R_PC + sext 9 (bits instr 8 0)) % 65536
      else vm.registers R_PC := by
  have hlt : instr < 4096 := by
    rw [Nat.shiftRight_eq_div_pow] at hop
    have : instr / 2 ^ 12 = 0 := hop
    norm_num at this
    omega
  have hb : bits instr 11 9 = instr >>> 9 := by
    rw [Nat.shiftRight_eq_div_pow]
    unfold bits
    norm_num
    omega
  have hs : sign_extend (instr &&& 0x1FF) 9 = sext 9 (bits instr 8 0) := by
    rw [field_8_0]
    exact sign_extend_eq_sext 9 _ (by decide) (by decide) (bits_lt instr 8 0)
  unfold op_BR logical_and
  simp only [hs, ← hb]
  by_cases h0 : bits instr 11 9 = 0
  · simp [h0]
  · simp only [ne_eq, h0, not_false_eq_true, OfNat.ofNat_ne_zero, and_self, if_true, and_1,
      true_and]
    by_cases h1 : vm.registers R_COND % 2 = 1
    · simp [h1, VM.setReg]
    · have : vm.registers R_COND % 2 = 0 := by omega
      simp [this]

/-- The register whose value `OP_ST` stores is always R1. -/
theorem op_ST_code (instr : Nat) (vm : VM) (hop : instr >>> 12 = OP_ST) :
    op_ST instr vm =
      mem_write ((vm.registers R_PC + sext 9 (bits instr 8 0)) % 65536)
        (vm.registers R_R1) vm := by
  have hne : instr >>> 9 ≠ 0 := by
    rw [Nat.shiftRight_eq_div_pow] at hop ⊢
    have : instr / 2 ^ 12 = 3 := hop
    norm_num at this ⊢
    omega
  have hs : sign_extend (instr &&& 0x1FF) 9 = sext 9 (bits instr 8 0) := by
    rw [field_8_0]
    exact sign_extend_eq_sext 9 _ (by decide) (by decide) (bits_lt instr 8 0)
  unfold op_ST logical_and
  simp [hs, hne]

/-- Case `OP_STR` takes the base register from bits 11..9 and adds the 6-bit field
without sign extension. -/
theorem op_STR_code (instr : Nat) (vm : VM) :
    op_STR instr vm =
      mem_write ((vm.registers (bits instr 11 9) + bits instr 5 0) % 65536)
        (vm.registers (bits instr 11 9)) vm := by
  have hs : sign_extend (instr &&& 0x3F) 9 = bits instr 5 0 := by
    rw [field_5_0]
    have hlt : bits instr 5 0 < 64 := bits_lt instr 5 0
    have : sext 9 (bits instr 5 0) = bits instr 5 0 := by
      unfold sext
      rw [if_pos]
      norm_num
      omega
    rw [sign_extend_eq_sext 9 (bits instr 5 0) (by decide) (by decide) (by norm_num; omega)]
    exact this
  unfold op_STR
  simp only [hs, field_11_9]

/-- Case `OP_LDI` performs the same single read as `OP_LD`. -/
theorem op_LDI_code (instr : Nat) (vm : VM) : op_LDI instr vm = op_LD instr vm := rfl

/-- For a non-negative offset (bit 10 clear) `OP_JSR` in its JSR form adds
`0x4800 + offset` to the incremented PC. -/
theorem op_JSR_code (instr : Nat) (vm : VM) (hop : instr >>> 12 = OP_JSR)
    (h11 : bits instr 11 11 = 1) (h10 : bits instr 10 10 = 0) :
    (op_JSR instr vm).registers R_PC =
      (vm.registers R_PC + (0x4800 + bits instr 10 0)) % 65536 := by
  have hop2 : instr / 2 ^ 12 = 4 := by rw [← Nat.shiftRight_eq_div_pow]; exact hop
  have hs : sign_extend (instr &&& 0x7FFF) 11 = 0x4800 + bits instr 10 0 := by
    rw [and_7FFF]
    unfold sign_extend
    rw [if_neg]
    · unfold bits at h11 h10 ⊢
      norm_num at h11 h10 hop2 ⊢
      omega
    · rw [and_1, Nat.shiftRight_eq_div_pow]
      unfold bits at h11 h10
      norm_num at h11 h10 hop2 ⊢
      omega
  unfold op_JSR
  simp only [hs, field_11_11, h11]
  simp [VM.setReg]

/-! ## Image loader -/

theorem store_words_memory (ws : List Nat) : ∀ (p : Nat) (vm : VM) (a : Nat),
    (store_words ws p vm).memory a =
      if p ≤ a ∧ a < p + ws.length then ws.getD (a - p) 0 else vm.memory a := by
  induction ws with
  | nil =>
    intro p vm a
    have : ¬ (p ≤ a ∧ a < p + ([] : List Nat).length) := by simp
    rw [if_neg this]; rfl
  | cons w ws ih =>
    intro p vm a
    unfold store_words
    rw [ih (p + 1) (vm.setMem p w) a]
    simp only [List.length_cons, VM.setMem]
    by_cases h1 : p + 1 ≤ a ∧ a < p + 1 + ws.length
    · rw [if_pos h1, if_pos (by omega)]
      have : a - p = (a - (p + 1)) + 1 := by omega
      rw [this, List.getD_cons_succ]
    · rw [if_neg h1]
      by_cases h2 : a = p
      · subst h2
        rw [if_pos rfl, if_pos (by omega)]
        simp
      · rw [if_neg h2, if_neg (by omega)]

theorem swap_loop_memory (n : Nat) : ∀ (p : Nat) (vm : VM) (a : Nat),
    (swap_loop n p vm).memory a =
      if p ≤ a ∧ a < p + n then swap16 (vm.memory a) else vm.memory a := by
  induction n with
  | zero =>
    intro p vm a
    have : ¬ (p ≤ a ∧ a < p + 0) := by omega
    rw [if_neg this]; rfl
  | succ n ih =>
    intro p vm a
    unfold swap_loop
    rw [ih (p + 1) (vm.setMem p (swap16 (vm.memory p))) a]
    simp only [VM.setMem]
    by_cases h2 : a = p
    · subst h2
      rw [if_neg (by omega), if_pos rfl, if_pos (by omega)]
    · rw [if_neg h2]
      by_cases h1 : p + 1 ≤ a ∧ a < p + 1 + n
      · rw [if_pos h1, if_pos (by omega)]
      · rw [if_neg h1, if_neg (by omega)]

theorem fread_words_exact (len : Nat) : ∀ (count : Nat) (rest : List Nat),
    rest.length = 2 * len → len ≤ count →
      (fread_words count rest).length = len ∧ fread_torn count rest = false ∧
      ∀ i, i < len → (fread_words count rest).getD i 0 =
        rest.getD (2 * i) 0 % 256 + 256 * (rest.getD (2 * i + 1) 0 % 256) := by
  induction len with
  | zero =>
    intro count rest hlen _
    have hnil : rest = [] := List.length_eq_zero.mp (by omega)
    subst hnil
    cases count <;> exact ⟨rfl, rfl, fun i hi => absurd hi (by omega)⟩
  | succ n ih =>
    intro count rest hlen hcount
    match rest, hlen with
    | [], h => simp at h
    | [_], h => simp at h; omega
    | b0 :: b1 :: tl, h =>
      obtain ⟨c, rfl⟩ : ∃ c, count = c + 1 := ⟨count - 1, by omega⟩
      have htl : tl.length = 2 * n := by simp at h; omega
      obtain ⟨h1, h2, h3⟩ := ih c tl htl (by omega)
      refine ⟨?_, ?_, ?_⟩
      · simp [fread_words, h1]
      · simp [fread_torn, h2]
      · intro i hi
        cases i with
        | zero => simp [fread_words]
        | succ j =>
          have := h3 j (by omega)
          have e1 : 2 * (j + 1) = (2 * j + 1) + 1 := by omega
          have e2 : 2 * (j + 1) + 1 = (2 * j + 1 + 1) + 1 := by omega
          simp only [fread_words, List.getD_cons_succ, e1, e2]
          exact this

theorem swap16_bytes (lo hi : Nat) (hlo : lo < 256) (hhi : hi < 256) :
    swap16 (lo + 256 * hi) = lo * 256 + hi := by
  unfold swap16
  have h1 : (lo + 256 * hi) >>> 8 = hi := by
    rw [Nat.shiftRight_eq_div_pow]; norm_num; omega
  have h2 : (lo + 256 * hi) <<< 8 = 2 ^ 8 * (lo + 256 * hi) := by
    rw [Nat.shiftLeft_eq, Nat.mul_comm]
  rw [h1, h2, ← Nat.mul_add_lt_is_or (by norm_num; exact hhi)]
  norm_num
  omega

theorem getD_lt_of_forall (file : List Nat) (h : ∀ b ∈ file, b < 256) (k : Nat) :
    file.getD k 0 < 256 := by
  by_cases hk : k < file.length
  · rw [List.getD_eq_getElem _ _ hk]
    exact h _ (List.getElem_mem hk)
  · rw [List.getD_eq_default _ _ (by omega)]
    decide

/-- C13. For an image made of a 2-byte big-endian origin followed by `len`
big-endian 16-bit words with `origin + len ≤ 65535`, `read_image_file` returns a
state in which memory[origin + i] = byte[2i+2] * 256 + byte[2i+3] for every i < len
and every memory word outside [origin, origin + len) is as before. -/
theorem read_image_file_spec (vm : VM) (file : List Nat) (origin len : Nat)
    (hbytes : ∀ b ∈ file, b < 256) (hlen : file.length = 2 + 2 * len)
    (horigin : origin = file.getD 0 0 * 256 + file.getD 1 0)
    (hfit : origin + len ≤ 65535) :
    ∃ vm2, read_image_file file vm = some vm2 ∧
      (∀ i, i < len →
        vm2.memory (origin + i) = file.getD (2 * i + 2) 0 * 256 + file.getD (2 * i + 3) 0) ∧
      (∀ a, a < origin ∨ origin + len ≤ a → vm2.memory a = vm.memory a) := by
  have hget := getD_lt_of_forall file hbytes
  match file, hlen with
  | [], h => simp at h; omega
  | [_], h => simp at h; omega
  | b0 :: b1 :: rest, h =>
    have hb0 : b0 < 256 := hget 0
    have hb1 : b1 < 256 := hget 1
    have horg : swap16 (b0 % 256 + 256 * (b1 % 256)) = origin := by
      rw [Nat.mod_eq_of_lt hb0, Nat.mod_eq_of_lt hb1, swap16_bytes b0 b1 hb0 hb1, horigin]
      rfl
    have hrest : rest.length = 2 * len := by simp at h; omega
    obtain ⟨h1, h2, h3⟩ := fread_words_exact len (UINT16_MAX - origin) rest hrest
      (by show len ≤ 65535 - origin; omega)
    refine ⟨swap_loop len origin
      (store_words (fread_words (UINT16_MAX - origin) rest) origin vm), ?_, ?_, ?_⟩
    · simp only [read_image_file, horg, h2, h1]
      rfl
    · intro i hi
      rw [swap_loop_memory, if_pos (by omega), store_words_memory, h1, if_pos (by omega)]
      have e : origin + i - origin = i := by omega
      rw [e, h3 i hi]
      have g0 := hget (2 * i + 2)
      have g1 := hget (2 * i + 3)
      have e2 : 2 * i + 2 = (2 * i) + 1 + 1 := by omega
      have e3 : 2 * i + 3 = (2 * i + 1) + 1 + 1 := by omega
      rw [e2] at g0 ⊢
      rw [e3] at g1 ⊢
      simp only [List.getD_cons_succ] at g0 g1 ⊢
      rw [Nat.mod_eq_of_lt g0, Nat.mod_eq_of_lt g1]
      exact swap16_bytes _ _ g0 g1
    · intro a ha
      rw [swap_loop_memory, if_neg (by omega), store_words_memory, h1, if_neg (by omega)]

theorem read_image_file_spec_witness :
    ∃ vm2, read_image_file [0x30, 0x00, 0x12, 0x34, 0xAB, 0xCD] sevenState = some vm2 ∧
      vm2.memory 0x3000 = 0x1234 ∧ vm2.memory 0x3001 = 0xABCD ∧
      vm2.memory 0x2FFF = 7 ∧ vm2.memory 0x3002 = 7 := by
  obtain ⟨vm2, h1, h2, h3⟩ := read_image_file_spec sevenState
    [0x30, 0x00, 0x12, 0x34, 0xAB, 0xCD] 0x3000 2 (by decide) (by decide) (by decide)
    (by decide)
  exact ⟨vm2, h1, h2 0 (by decide), h2 1 (by decide), h3 0x2FFF (by decide),
    h3 0x3002 (by decide)⟩

/-! ## Case analysis on the fetch and on the opcode -/

theorem fetch_cases (vm vm1 : VM) (instr : Nat) (h : fetch vm = some (instr, vm1)) :
    (vm.registers R_PC ≠ MR_KBSR ∧
        vm1 = vm.setReg R_PC ((vm.registers R_PC + 1) % 65536) ∧
        instr = vm.memory (vm.registers R_PC)) ∨
      (vm.registers R_PC = MR_KBSR ∧ (instr = 0 ∨ instr = 1 <<< 15)) := by
  unfold fetch at h
  dsimp only at h
  rw [mem_read_eq] at h
  by_cases hlt : vm.registers R_PC < UINT16_MAX
  · rw [if_pos hlt] at h
    by_cases ha : vm.registers R_PC = MR_KBSR
    · right
      refine ⟨ha, ?_⟩
      rw [if_pos ha] at h
      split_ifs at h
      · simp only [Option.some.injEq, Prod.mk.injEq] at h
        exact Or.inr h.1.symm
      · simp only [Option.some.injEq, Prod.mk.injEq] at h
        exact Or.inl h.1.symm
    · left
      rw [if_neg ha] at h
      simp only [Option.some.injEq, Prod.mk.injEq] at h
      exact ⟨ha, h.2.symm, h.1.symm⟩
  · rw [if_neg hlt] at h
    exact absurd h (by simp)

/-- A fetched word whose opcode is neither 0 (BR) nor 8 (RTI) cannot come from the
keyboard status address, so its fetch changes nothing but PC. -/
theorem fetch_plain (vm vm1 : VM) (instr : Nat) (h : fetch vm = some (instr, vm1))
    (h0 : instr >>> 12 ≠ OP_BR) (h8 : instr >>> 12 ≠ OP_RTI) :
    vm1 = vm.setReg R_PC ((vm.registers R_PC + 1) % 65536) ∧
      instr = vm.memory (vm.registers R_PC) ∧ vm.registers R_PC ≠ MR_KBSR := by
  rcases fetch_cases vm vm1 instr h with ⟨h1, h2, h3⟩ | ⟨-, h2 | h2⟩
  · exact ⟨h2, h3, h1⟩
  · subst h2; exact absurd rfl h0
  · subst h2; exact absurd rfl h8

theorem ite_cases_dep {α : Type} (P : α → Prop) (c : Prop) [Decidable c] (a b : α)
    (ha : c → P a) (hb : ¬ c → P b) : P (if c then a else b) := by
  split_ifs with h
  · exact ha h
  · exact hb h

/-- A property holds of the outcome of `execute` when it holds of the outcome of
each case of the `switch` under the opcode that selects it. -/
theorem execute_by_op (P : Option VM → Prop) (instr : Nat) (vm : VM)
    (hADD : instr >>> 12 = OP_ADD → P (some (op_ADD instr vm)))
    (hAND : instr >>> 12 = OP_AND → P (some (op_AND instr vm)))
    (hNOT : instr >>> 12 = OP_NOT → P (some (op_NOT instr vm)))
    (hBR : instr >>> 12 = OP_BR → P (some (op_BR instr vm)))
    (hJMP : instr >>> 12 = OP_JMP → P (some (op_JMP instr vm)))
    (hJSR : instr >>> 12 = OP_JSR → P (some (op_JSR instr vm)))
    (hLD : instr >>> 12 = OP_LD → P (op_LD instr vm))
    (hLDI : instr >>> 12 = OP_LDI → P (op_LDI instr vm))
    (hLDR : instr >>> 12 = OP_LDR → P (op_LDR instr vm))
    (hLEA : instr >>> 12 = OP_LEA → P (some (op_LEA instr vm)))
    (hST : instr >>> 12 = OP_ST → P (op_ST instr vm))
    (hSTI : instr >>> 12 = OP_STI → P (op_STI instr vm))
    (hSTR : instr >>> 12 = OP_STR → P (op_STR instr vm))
    (hTRAP : instr >>> 12 = OP_TRAP → P (op_TRAP instr vm))
    (hother : P (some vm)) : P (execute instr vm) := by
  unfold execute
  dsimp only
  refine ite_cases_dep P _ _ _ hADD fun _ => ?_
  refine ite_cases_dep P _ _ _ hAND fun _ => ?_
  refine ite_cases_dep P _ _ _ hNOT fun _ => ?_
  refine ite_cases_dep P _ _ _ hBR fun _ => ?_
  refine ite_cases_dep P _ _ _ hJMP fun _ => ?_
  refine ite_cases_dep P _ _ _ hJSR fun _ => ?_
  refine ite_cases_dep P _ _ _ hLD fun _ => ?_
  refine ite_cases_dep P _ _ _ hLDI fun _ => ?_
  refine ite_cases_dep P _ _ _ hLDR fun _ => ?_
  refine ite_cases_dep P _ _ _ hLEA fun _ => ?_
  refine ite_cases_dep P _ _ _ hST fun _ => ?_
  refine ite_cases_dep P _ _ _ hSTI fun _ => ?_
  refine ite_cases_dep P _ _ _ hSTR fun _ => ?_
  exact ite_cases_dep P _ _ _ hTRAP fun _ => hother

/-! ## Reserved opcodes and unknown trap vectors -/

theorem op_TRAP_unknown (instr : Nat) (vm : VM)
    (hv : ¬ (0x20 ≤ bits instr 7 0 ∧ bits instr 7 0 ≤ 0x25)) :
    op_TRAP instr vm = some vm := by
  unfold op_TRAP
  dsimp only
  rw [field_7_0]
  have h0 : bits instr 7 0 ≠ 0x20 := by omega
  have h1 : bits instr 7 0 ≠ 0x21 := by omega
  have h2 : bits instr 7 0 ≠ 0x22 := by omega
  have h3 : bits instr 7 0 ≠ 0x23 := by omega
  rw [if_neg h0, if_neg h1, if_neg h2, if_neg h3]
  split_ifs <;> rfl

/-- C18. In a state whose PC is not the keyboard status address, a step that fetches
a word with opcode RES (1101) or RTI (1000), or a TRAP word whose vector is outside
0x20..0x25, completes and changes nothing but PC, which advances by one mod 2^16:
memory, every other register (R0..R7, COND), the output, the console input and
`running` are as before. -/
theorem step_noop (vm vm1 : VM) (instr : Nat) (hpc : vm.registers R_PC ≠ MR_KBSR)
    (hfetch : fetch vm = some (instr, vm1))
    (hop : instr >>> 12 = OP_RES ∨ instr >>> 12 = OP_RTI ∨
      (instr >>> 12 = OP_TRAP ∧ ¬ (0x20 ≤ bits instr 7 0 ∧ bits instr 7 0 ≤ 0x25))) :
    ∃ vm2, step vm = some vm2 ∧ vm2.memory = vm.memory ∧
      (∀ r, r ≠ R_PC → vm2.registers r = vm.registers r) ∧
      vm2.registers R_PC = (vm.registers R_PC + 1) % 65536 ∧
      vm2.stdout = vm.stdout ∧ vm2.running = vm.running ∧
      vm2.kbhit = vm.kbhit ∧ vm2.stdin = vm.stdin := by
  have hvm1 : vm1 = vm.setReg R_PC ((vm.registers R_PC + 1) % 65536) := by
    rcases fetch_cases vm vm1 instr hfetch with ⟨-, h2, -⟩ | ⟨h1, -⟩
    · exact h2
    · exact absurd h1 hpc
  have hexec : execute instr vm1 = some vm1 := by
    rcases hop with h | h | ⟨h, hv⟩
    · simp [execute, h]
    · simp [execute, h]
    · simp only [execute, h]
      simp only [OP_TRAP, OP_ADD, OP_AND, OP_NOT, OP_BR, OP_JMP, OP_JSR, OP_LD, OP_LDI, OP_LDR,
        OP_LEA, OP_ST, OP_STI, OP_STR, reduceCtorEq, Nat.reduceEqDiff, if_false, if_true]
      exact op_TRAP_unknown instr vm1 hv
  refine ⟨vm1, ?_, ?_, ?_, ?_, ?_, ?_, ?_, ?_⟩
  · rw [step_of_fetch vm vm1 instr hfetch, hexec]
  · rw [hvm1]; rfl
  · intro r hr; rw [hvm1]; simp [VM.setReg, hr]
  · rw [hvm1]; simp [VM.setReg]
  · rw [hvm1]; rfl
  · rw [hvm1]; rfl
  · rw [hvm1]; rfl
  · rw [hvm1]; rfl

theorem step_noop_witness :
    ∃ vm2, step resState = some vm2 ∧ vm2.memory = resState.memory ∧
      vm2.registers R_R3 = 4 ∧ vm2.registers R_COND = FL_NEG ∧
      vm2.registers R_PC = 0x3001 ∧ vm2.stdout = [] ∧ vm2.running = 1 := by
  obtain ⟨vm2, h1, h2, h3, h4, h5, h6, _, _⟩ :=
    step_noop resState _ 0xD000 (by decide) rfl (Or.inl (by decide))
  exact ⟨vm2, h1, h2, h3 R_R3 (by decide), h3 R_COND (by decide), h4, h5, h6⟩

/-! ## JSRR -/

/-- C19 (as amended). One step on a JSRR word (opcode 0100, bit 11 clear): PC
becomes the value the base register (bits 8..6) held before the step when the base
is one of R0..R6, and the return address (the incremented PC, just saved in R7)
when the base is R7. -/
theorem step_JSRR_PC (vm vm1 : VM) (instr : Nat)
    (hfetch : fetch vm = some (instr, vm1)) (hop : instr >>> 12 = OP_JSR)
    (h11 : bits instr 11 11 = 0) :
    ∃ vm2, step vm = some vm2 ∧
      vm2.registers R_PC =
        if bits instr 8 6 = 7 then (vm.registers R_PC + 1) % 65536
        else vm.registers (bits instr 8 6) := by
  obtain ⟨-, -, hpc, hregs, -, -⟩ := fetch_some vm vm1 instr hfetch
  have h6 : bits instr 8 6 < 8 := bits_lt instr 8 6
  refine ⟨op_JSR instr vm1, ?_, ?_⟩
  · rw [step_of_fetch vm vm1 instr hfetch]
    simp [execute, hop]
  · unfold op_JSR
    simp only [field_11_11, field_8_6, h11, if_true]
    by_cases hb : bits instr 8 6 = 7
    · simp [VM.setReg, hb, hpc]
    · have hne : bits instr 8 6 ≠ R_PC := by show bits instr 8 6 ≠ 8; omega
      simp [VM.setReg, hb, hregs _ hne]

theorem step_JSRR_PC_witness :
    (∃ vm2, step jsrrState = some vm2 ∧ vm2.registers R_PC = 0x5000) ∧
      (∃ vm2, step jsrr7State = some vm2 ∧ vm2.registers R_PC = 0x3001) :=
  ⟨step_JSRR_PC jsrrState _ 0x4080 rfl (by decide) (by decide),
    step_JSRR_PC jsrr7State _ 0x41C0 rfl (by decide) (by decide)⟩

/-- C19 (as stated) fails for base R7: `JSRR R7` at `0x3000` with R7 = `0x5000`
leaves PC = `0x3001`, not the `0x5000` that R7 held before the step. -/
theorem step_JSRR_R7_counterexample :
    fetch jsrr7State = some (0x41C0, jsrr7State.setReg R_PC 0x3001) ∧
      0x41C0 >>> 12 = OP_JSR ∧ bits 0x41C0 11 11 = 0 ∧ bits 0x41C0 8 6 = 7 ∧
      jsrr7State.registers (bits 0x41C0 8 6) = 0x5000 ∧
      (step jsrr7State).map (fun v => v.registers R_PC) = some 0x3001 ∧
      ¬ ((step jsrr7State).map (fun v => v.registers R_PC) =
        some (jsrr7State.registers (bits 0x41C0 8 6))) := by
  refine ⟨rfl, by decide, by decide, by decide, by decide, by decide, by decide⟩

/-! ## Frame lemmas -/

theorem sign_extend_off9 (instr : Nat) :
    sign_extend (instr &&& 0x1FF) 9 = sext 9 (bits instr 8 0) := by
  rw [field_8_0]
  exact sign_extend_eq_sext 9 _ (by decide) (by decide) (bits_lt instr 8 0)

theorem sign_extend_off6 (instr : Nat) :
    sign_extend (instr &&& 0x3F) 6 = sext 6 (bits instr 5 0) := by
  rw [field_5_0]
  exact sign_extend_eq_sext 6 _ (by decide) (by decide) (bits_lt instr 5 0)

theorem mem_write_some (a v : Nat) (vm vm2 : VM) (h : mem_write a v vm = some vm2) :
    a < UINT16_MAX ∧ vm2 = vm.setMem a v := by
  unfold mem_write at h
  split_ifs at h with hlt
  simp only [Option.some.injEq] at h
  exact ⟨hlt, h.symm⟩

theorem puts_loop_frame (fuel : Nat) : ∀ (c : Nat) (vm vm2 : VM),
    puts_loop fuel c vm = some vm2 →
      vm2.memory = vm.memory ∧ vm2.registers = vm.registers ∧ vm2.kbhit = vm.kbhit ∧
      vm2.stdin = vm.stdin := by
  induction fuel with
  | zero => intro c vm vm2 h; simp [puts_loop] at h
  | succ n ih =>
    intro c vm vm2 h
    unfold puts_loop at h
    split_ifs at h with h1 h2
    · exact ih (c + 1) (vm.putc (vm.memory c)) vm2 h
    · simp only [Option.some.injEq] at h
      rw [← h]
      exact ⟨rfl, rfl, rfl, rfl⟩

theorem op_TRAP_frame (instr : Nat) (vm vm2 : VM) (h : op_TRAP instr vm = some vm2) :
    vm2.memory = vm.memory ∧ (∀ r, r ≠ R_R0 → vm2.registers r = vm.registers r) := by
  unfold op_TRAP at h
  dsimp only at h
  generalize instr &&& 0xFF = v at h
  split_ifs at h
  · simp only [Option.some.injEq] at h
    rw [← h]
    refine ⟨(getchar_frame vm).1, fun r hr => ?_⟩
    simp [VM.setReg, hr, (getchar_frame vm).2.1]
  · simp only [Option.some.injEq] at h
    rw [← h]
    exact ⟨rfl, fun r _ => rfl⟩
  · obtain ⟨h1, h2, -, -⟩ := puts_loop_frame _ _ _ _ h
    exact ⟨h1, fun r _ => by rw [h2]⟩
  · simp only [Option.some.injEq] at h
    rw [← h]
    refine ⟨(getchar_frame _).1, fun r hr => ?_⟩
    simp [VM.setReg, VM.putc, hr, (getchar_frame _).2.1]
  · simp only [Option.some.injEq] at h
    rw [← h]
    exact ⟨rfl, fun r _ => rfl⟩
  · simp only [Option.some.injEq] at h
    rw [← h]
    exact ⟨rfl, fun r _ => rfl⟩
  · simp only [Option.some.injEq] at h
    rw [← h]
    exact ⟨rfl, fun r _ => rfl⟩

theorem op_STI_some (instr : Nat) (vm vm2 : VM) (h : op_STI instr vm = some vm2) :
    vm2.registers = vm.registers ∧ vm2.stdout = vm.stdout := by
  unfold op_STI at h
  simp only [Option.bind_eq_some] at h
  obtain ⟨⟨v, vm1⟩, hread, hw⟩ := h
  obtain ⟨-, -, h1, -, h2⟩ := mem_read_some _ v vm vm1 hread
  obtain ⟨-, h3⟩ := mem_write_some _ _ _ _ hw
  rw [h3]
  exact ⟨h1, h2⟩

/-! ## Store instructions -/

/-- C17. For a step that fetches an ST, STI or STR word: afterwards COND and
R0..R7 (every register other than PC) hold their old values, PC is the
incremented PC, and `running` and the output are unchanged, so that only PC and
memory can differ.  The step completes whenever the store target (and, for STI,
the pointer read) lies inside the memory array. -/
theorem step_store_frame (vm vm1 : VM) (instr : Nat)
    (hfetch : fetch vm = some (instr, vm1))
    (hop : instr >>> 12 = OP_ST ∨ instr >>> 12 = OP_STI ∨ instr >>> 12 = OP_STR) :
    (∀ vm2, step vm = some vm2 →
        (∀ r, r ≠ R_PC → vm2.registers r = vm.registers r) ∧
        vm2.registers R_PC = (vm.registers R_PC + 1) % 65536 ∧
        vm2.running = vm.running ∧ vm2.stdout = vm.stdout) ∧
      (instr >>> 12 = OP_ST →
        ((vm.registers R_PC + 1) % 65536 + sext 9 (bits instr 8 0)) % 65536 < UINT16_MAX →
        ∃ vm2, step vm = some vm2) ∧
      (instr >>> 12 = OP_STR →
        (vm.registers (bits instr 11 9) + bits instr 5 0) % 65536 < UINT16_MAX →
        ∃ vm2, step vm = some vm2) ∧
      (instr >>> 12 = OP_STI →
        ((vm.registers R_PC + 1) % 65536 + sext 9 (bits instr 8 0)) % 65536 < UINT16_MAX →
        ((vm.registers R_PC + 1) % 65536 + sext 9 (bits instr 8 0)) % 65536 ≠ MR_KBSR →
        vm.memory (((vm.registers R_PC + 1) % 65536 + sext 9 (bits instr 8 0)) % 65536)
          < UINT16_MAX →
        ∃ vm2, step vm = some vm2) := by
  have hne0 : instr >>> 12 ≠ OP_BR := by rcases hop with h | h | h <;> rw [h] <;> decide
  have hne8 : instr >>> 12 ≠ OP_RTI := by rcases hop with h | h | h <;> rw [h] <;> decide
  obtain ⟨hvm1, -, -⟩ := fetch_plain vm vm1 instr hfetch hne0 hne8
  have hpc1 : vm1.registers R_PC = (vm.registers R_PC + 1) % 65536 := by
    rw [hvm1]; simp [VM.setReg]
  have hregs1 : ∀ r, r ≠ R_PC → vm1.registers r = vm.registers r := by
    intro r hr; rw [hvm1]; simp [VM.setReg, hr]
  have hmem1 : vm1.memory = vm.memory := by rw [hvm1]; rfl
  rw [step_of_fetch vm vm1 instr hfetch]
  refine ⟨?_, ?_, ?_, ?_⟩
  · intro vm2 hstep
    have key : vm2.registers = vm1.registers ∧ vm2.stdout = vm1.stdout := by
      rcases hop with h | h | h
      · simp [execute, h] at hstep
        obtain ⟨-, h3⟩ := mem_write_some _ _ _ _ hstep
        rw [h3]; exact ⟨rfl, rfl⟩
      · simp [execute, h] at hstep
        exact op_STI_some instr vm1 vm2 hstep
      · simp [execute, h] at hstep
        obtain ⟨-, h3⟩ := mem_write_some _ _ _ _ hstep
        rw [h3]; exact ⟨rfl, rfl⟩
    refine ⟨fun r hr => by rw [key.1]; exact hregs1 r hr, by rw [key.1]; exact hpc1, ?_, ?_⟩
    · rw [execute_running instr vm1 vm2 hstep, hvm1]; rfl
    · rw [key.2, hvm1]; rfl
  · intro h hlt
    simp only [execute, h]
    simp only [OP_ST, OP_ADD, OP_AND, OP_NOT, OP_BR, OP_JMP, OP_JSR, OP_LD, OP_LDI, OP_LDR,
      OP_LEA, reduceCtorEq, Nat.reduceEqDiff, if_false, if_true]
    rw [op_ST_code instr vm1 h, hpc1]
    unfold mem_write
    rw [if_pos hlt]
    exact ⟨_, rfl⟩
  · intro h hlt
    have h9 : bits instr 11 9 ≠ R_PC := by
      have := bits_lt instr 11 9
      show bits instr 11 9 ≠ 8
      omega
    simp only [execute, h]
    simp only [OP_ST, OP_STI, OP_STR, OP_ADD, OP_AND, OP_NOT, OP_BR, OP_JMP, OP_JSR, OP_LD,
      OP_LDI, OP_LDR, OP_LEA, reduceCtorEq, Nat.reduceEqDiff, if_false, if_true]
    rw [op_STR_code instr vm1, hregs1 _ h9]
    unfold mem_write
    rw [if_pos hlt]
    exact ⟨_, rfl⟩
  · intro h hlt hk hptr
    simp only [execute, h]
    simp only [OP_ST, OP_STI, OP_ADD, OP_AND, OP_NOT, OP_BR, OP_JMP, OP_JSR, OP_LD,
      OP_LDI, OP_LDR, OP_LEA, reduceCtorEq, Nat.reduceEqDiff, if_false, if_true]
    unfold op_STI
    dsimp only
    rw [sign_extend_off9, hpc1, mem_read_plain _ vm1 hk hlt]
    simp only [Option.some_bind]
    unfold mem_write
    rw [hmem1, if_pos hptr]
    exact ⟨_, rfl⟩

theorem step_store_frame_witness :
    ∃ vm2, step stiState = some vm2 ∧ vm2.registers R_R2 = 0xBEEF ∧
      vm2.registers R_COND = FL_POS ∧ vm2.registers R_PC = 0x3001 ∧
      vm2.running = 1 ∧ vm2.stdout = [] := by
  obtain ⟨h, -, -, -⟩ := step_store_frame stiState _ 0xB401 rfl (Or.inr (Or.inl (by decide)))
  obtain ⟨h1, h2, h3, h4⟩ := h _ rfl
  exact ⟨_, rfl, h1 R_R2 (by decide), h1 R_COND (by decide), h2, h3, h4⟩

/-! ## Memory is written only by stores and by the keyboard poll -/

theorem load_memory (r a : Nat) (vm vm2 : VM) (ha : a ≠ MR_KBSR)
    (h : (mem_read a vm).map (fun p => update_flags r (p.2.setReg r p.1)) = some vm2) :
    vm2.memory = vm.memory := by
  rw [Option.map_eq_some'] at h
  obtain ⟨⟨v, vm1⟩, hread, hvm2⟩ := h
  have hlt := (mem_read_some a v vm vm1 hread).1
  rw [mem_read_plain a vm ha hlt] at hread
  simp only [Option.some.injEq, Prod.mk.injEq] at hread
  rw [← hvm2, (update_flags_frame _ _).2.1, ← hread.2]
  rfl

theorem op_ADD_memory (instr : Nat) (vm : VM) : (op_ADD instr vm).memory = vm.memory := by
  unfold op_ADD
  dsimp only
  rw [(update_flags_frame _ _).2.1]
  split_ifs <;> rfl

theorem op_AND_memory (instr : Nat) (vm : VM) : (op_AND instr vm).memory = vm.memory := by
  unfold op_AND
  dsimp only
  rw [(update_flags_frame _ _).2.1]
  split_ifs <;> rfl

theorem op_BR_frame (instr : Nat) (vm : VM) :
    (op_BR instr vm).memory = vm.memory ∧
      ∀ r, r ≠ R_PC → (op_BR instr vm).registers r = vm.registers r := by
  unfold op_BR
  dsimp only
  split_ifs
  · exact ⟨rfl, fun r hr => by simp [VM.setReg, hr]⟩
  · exact ⟨rfl, fun r _ => rfl⟩

theorem op_JSR_frame (instr : Nat) (vm : VM) :
    (op_JSR instr vm).memory = vm.memory ∧
      ∀ r, r ≠ R_PC → r ≠ R_R7 → (op_JSR instr vm).registers r = vm.registers r := by
  unfold op_JSR
  dsimp only
  split_ifs
  · exact ⟨rfl, fun r hr h7 => by simp [VM.setReg, hr, h7]⟩
  · exact ⟨rfl, fun r hr h7 => by simp [VM.setReg, hr, h7]⟩

/-- C20. For a step that fetches a word whose opcode is not ST, STI or STR, from a
PC other than the keyboard status address, and whose load address (for LD, LDI and
LDR, the one address the code reads) is not the keyboard status address: memory
after the step is identical to memory before it. -/
theorem step_memory_unchanged (vm vm1 vm2 : VM) (instr : Nat)
    (hfetch : fetch vm = some (instr, vm1)) (hstep : step vm = some vm2)
    (hST : instr >>> 12 ≠ OP_ST) (hSTI : instr >>> 12 ≠ OP_STI)
    (hSTR : instr >>> 12 ≠ OP_STR)
    (hpc : vm.registers R_PC ≠ MR_KBSR)
    (hld : instr >>> 12 = OP_LD ∨ instr >>> 12 = OP_LDI →
      ((vm.registers R_PC + 1) % 65536 + sext 9 (bits instr 8 0)) % 65536 ≠ MR_KBSR)
    (hldr : instr >>> 12 = OP_LDR →
      (vm.registers (bits instr 8 6) + sext 6 (bits instr 5 0)) % 65536 ≠ MR_KBSR) :
    vm2.memory = vm.memory := by
  have hvm1 : vm1 = vm.setReg R_PC ((vm.registers R_PC + 1) % 65536) := by
    rcases fetch_cases vm vm1 instr hfetch with ⟨-, h2, -⟩ | ⟨h1, -⟩
    · exact h2
    · exact absurd h1 hpc
  have hpc1 : vm1.registers R_PC = (vm.registers R_PC + 1) % 65536 := by
    rw [hvm1]; simp [VM.setReg]
  have hmem1 : vm1.memory = vm.memory := by rw [hvm1]; rfl
  have h6 : bits instr 8 6 ≠ R_PC := by
    have := bits_lt instr 8 6
    show bits instr 8 6 ≠ 8
    omega
  have hreg6 : vm1.registers (bits instr 8 6) = vm.registers (bits instr 8 6) := by
    rw [hvm1]; simp [VM.setReg, h6]
  rw [step_of_fetch vm vm1 instr hfetch] at hstep
  rw [← hmem1]
  revert hstep
  refine execute_by_op (fun o => o = some vm2 → vm2.memory = vm1.memory) instr vm1
    ?_ ?_ ?_ ?_ ?_ ?_ ?_ ?_ ?_ ?_ ?_ ?_ ?_ ?_ ?_
  · intro _ h; simp only [Option.some.injEq] at h; rw [← h]; exact op_ADD_memory _ _
  · intro _ h; simp only [Option.some.injEq] at h; rw [← h]; exact op_AND_memory _ _
  · intro _ h; simp only [Option.some.injEq] at h; rw [← h]
    exact (update_flags_frame _ _).2.1
  · intro _ h; simp only [Option.some.injEq] at h; rw [← h]; exact (op_BR_frame _ _).1
  · intro _ h; simp only [Option.some.injEq] at h; rw [← h]; rfl
  · intro _ h; simp only [Option.some.injEq] at h; rw [← h]; exact (op_JSR_frame _ _).1
  · intro hop h
    unfold op_LD at h
    dsimp only at h
    rw [sign_extend_off9, hpc1] at h
    exact load_memory _ _ _ _ (hld (Or.inl hop)) h
  · intro hop h
    unfold op_LDI at h
    dsimp only at h
    rw [sign_extend_off9, hpc1] at h
    exact load_memory _ _ _ _ (hld (Or.inr hop)) h
  · intro hop h
    unfold op_LDR at h
    dsimp only at h
    rw [sign_extend_off6, field_8_6, hreg6] at h
    exact load_memory _ _ _ _ (hldr hop) h
  · intro _ h; simp only [Option.some.injEq] at h; rw [← h]
    exact (update_flags_frame _ _).2.1
  · intro hop; exact absurd hop hST
  · intro hop; exact absurd hop hSTI
  · intro hop; exact absurd hop hSTR
  · intro _ h; exact (op_TRAP_frame instr vm1 vm2 h).1
  · intro h; simp only [Option.some.injEq] at h; rw [← h]

theorem step_memory_unchanged_witness :
    ∃ vm2, step ldPlainState = some vm2 ∧ vm2.registers R_R0 = 5 ∧
      vm2.memory = ldPlainState.memory :=
  ⟨_, rfl, rfl, step_memory_unchanged ldPlainState _ _ 0x2001 rfl rfl (by decide) (by decide)
    (by decide) (by decide) (fun _ => by decide) (fun _ => by decide)⟩

/-! ## The values COND can take -/

theorem update_flags_cond_any (r : Nat) (vm : VM) : CondOK (update_flags r vm) := by
  unfold CondOK update_flags
  split_ifs
  · right; right; left; simp [VM.setReg]
  · right; right; right; simp [VM.setReg]
  · right; left; simp [VM.setReg]

theorem condOK_of_eq (vm vm2 : VM) (h : vm2.registers R_COND = vm.registers R_COND)
    (hc : CondOK vm) : CondOK vm2 := by
  unfold CondOK at hc ⊢
  rw [h]; exact hc

theorem execute_condOK (instr : Nat) (vm vm2 : VM) (hc : CondOK vm)
    (h : execute instr vm = some vm2) : CondOK vm2 := by
  revert h
  refine execute_by_op (fun o => o = some vm2 → CondOK vm2) instr vm
    ?_ ?_ ?_ ?_ ?_ ?_ ?_ ?_ ?_ ?_ ?_ ?_ ?_ ?_ ?_
  · intro _ h; simp only [Option.some.injEq] at h; rw [← h]; exact update_flags_cond_any _ _
  · intro _ h; simp only [Option.some.injEq] at h; rw [← h]; exact update_flags_cond_any _ _
  · intro _ h; simp only [Option.some.injEq] at h; rw [← h]; exact update_flags_cond_any _ _
  · intro _ h; simp only [Option.some.injEq] at h; rw [← h]
    exact condOK_of_eq _ _ ((op_BR_frame _ _).2 R_COND (by decide)) hc
  · intro _ h; simp only [Option.some.injEq] at h; rw [← h]
    exact condOK_of_eq _ _ (by simp [op_JMP, VM.setReg]) hc
  · intro _ h; simp only [Option.some.injEq] at h; rw [← h]
    exact condOK_of_eq _ _ ((op_JSR_frame _ _).2 R_COND (by decide) (by decide)) hc
  · intro _ h
    unfold op_LD at h
    rw [Option.map_eq_some'] at h
    obtain ⟨p, -, hp⟩ := h
    rw [← hp]; exact update_flags_cond_any _ _
  · intro _ h
    unfold op_LDI at h
    rw [Option.map_eq_some'] at h
    obtain ⟨p, -, hp⟩ := h
    rw [← hp]; exact update_flags_cond_any _ _
  · intro _ h
    unfold op_LDR at h
    rw [Option.map_eq_some'] at h
    obtain ⟨p, -, hp⟩ := h
    rw [← hp]; exact update_flags_cond_any _ _
  · intro _ h; simp only [Option.some.injEq] at h; rw [← h]; exact update_flags_cond_any _ _
  · intro _ h
    obtain ⟨-, h3⟩ := mem_write_some _ _ _ _ h
    exact condOK_of_eq _ _ (by rw [h3]; rfl) hc
  · intro _ h
    exact condOK_of_eq _ _ (by rw [(op_STI_some instr vm vm2 h).1]) hc
  · intro _ h
    obtain ⟨-, h3⟩ := mem_write_some _ _ _ _ h
    exact condOK_of_eq _ _ (by rw [h3]; rfl) hc
  · intro _ h
    exact condOK_of_eq _ _ ((op_TRAP_frame instr vm vm2 h).2 R_COND (by decide)) hc
  · intro h; simp only [Option.some.injEq] at h; rw [← h]; exact hc

theorem step_condOK (vm vm2 : VM) (hc : CondOK vm) (h : step vm = some vm2) : CondOK vm2 := by
  unfold step at h
  simp only [Option.bind_eq_some] at h
  obtain ⟨⟨instr, vm1⟩, hfetch, hexec⟩ := h
  refine execute_condOK instr vm1 vm2 ?_ hexec
  exact condOK_of_eq _ _ ((fetch_some vm vm1 instr hfetch).2.2.2.1 R_COND (by decide)) hc

theorem run_condOK (n : Nat) : ∀ (vm vm2 : VM), CondOK vm → run n vm = some vm2 → CondOK vm2 := by
  induction n with
  | zero =>
    intro vm vm2 hc h
    simp only [run, Option.some.injEq] at h
    rw [← h]; exact hc
  | succ k ih =>
    intro vm vm2 hc h
    unfold run at h
    split_ifs at h
    · simp only [Option.bind_eq_some] at h
      obtain ⟨vm1, h1, h2⟩ := h
      exact ih vm1 vm2 (step_condOK vm vm1 hc h1) h2
    · simp only [Option.some.injEq] at h
      rw [← h]; exact hc

/-- C16 (as stated) fails: in the state in which `main` enters the loop, and still
after the first instruction (here the word 0, a branch never taken) has been
fetched and executed, COND is 0, which is none of POSITIVE, ZERO, NEGATIVE. -/
theorem cond_initial_counterexample :
    (initial (fun _ => 0) [] []).registers R_COND = 0 ∧
      (run 1 (initial (fun _ => 0) [] [])).map (fun v => v.registers R_COND) = some 0 ∧
      ¬ ((initial (fun _ => 0) [] []).registers R_COND = FL_POS ∨
        (initial (fun _ => 0) [] []).registers R_COND = FL_ZRO ∨
        (initial (fun _ => 0) [] []).registers R_COND = FL_NEG) := by
  refine ⟨rfl, by decide, by decide⟩

/-! ## TRAP PUTS -/

theorem puts_loop_spec (fuel : Nat) : ∀ (c : Nat) (vm : VM) (z : Nat),
    c ≤ z → z < UINT16_MAX → vm.memory z = 0 →
      (∀ i, c ≤ i → i < z → vm.memory i ≠ 0) → z - c < fuel →
      puts_loop fuel c vm =
        some { vm with
          stdout := vm.stdout ++ (List.range' c (z - c)).map (fun a => vm.memory a % 256) } := by
  induction fuel with
  | zero => intro c vm z _ _ _ _ h; omega
  | succ n ih =>
    intro c vm z hcz hz hz0 hnz hfuel
    unfold puts_loop
    rw [if_pos (show c < UINT16_MAX by omega)]
    by_cases hc : c = z
    · subst hc
      rw [if_neg (by rw [hz0]; simp)]
      simp
    · have hlt : c < z := by omega
      rw [if_pos (hnz c (Nat.le_refl c) hlt)]
      rw [ih (c + 1) (vm.putc (vm.memory c)) z (by omega) hz hz0
        (fun i hi1 hi2 => hnz i (by omega) hi2) (by omega)]
      have e : z - c = (z - (c + 1)) + 1 := by omega
      rw [e, List.range'_succ]
      simp [VM.putc]

/-- C11. A step that fetches `TRAP x22` in a state where memory holds a zero word
at some index `z` of the array at or after R0, and no zero word between R0 and `z`:
the step completes, appends to the output exactly the low bytes of the words at
R0, .., z-1 in order, and leaves R0..R7, COND and memory unchanged.  With the words
'H' (72), 'I' (73), 0 at R0 the bytes written are exactly 72, 73. -/
theorem step_PUTS (vm vm1 : VM) (instr z : Nat)
    (hfetch : fetch vm = some (instr, vm1)) (hop : instr >>> 12 = OP_TRAP)
    (hvec : bits instr 7 0 = TRAP_PUTS)
    (hz1 : vm.registers R_R0 ≤ z) (hz2 : z < UINT16_MAX) (hz0 : vm.memory z = 0)
    (hnz : ∀ i, vm.registers R_R0 ≤ i → i < z → vm.memory i ≠ 0) :
    ∃ vm2, step vm = some vm2 ∧
      vm2.stdout = vm.stdout ++
        (List.range' (vm.registers R_R0) (z - vm.registers R_R0)).map
          (fun a => vm.memory a % 256) ∧
      (∀ r, r ≠ R_PC → vm2.registers r = vm.registers r) ∧
      vm2.memory = vm.memory ∧
      (vm.memory (vm.registers R_R0) = 72 → vm.memory (vm.registers R_R0 + 1) = 73 →
        z = vm.registers R_R0 + 2 → vm2.stdout = vm.stdout ++ [72, 73]) := by
  obtain ⟨hvm1, -, -⟩ := fetch_plain vm vm1 instr hfetch (by rw [hop]; decide)
    (by rw [hop]; decide)
  have hr0 : vm1.registers R_R0 = vm.registers R_R0 := by rw [hvm1]; rfl
  have hmem1 : vm1.memory = vm.memory := by rw [hvm1]; rfl
  have hout1 : vm1.stdout = vm.stdout := by rw [hvm1]; rfl
  have hexec : execute instr vm1 =
      puts_loop (UINT16_MAX + 1 - vm1.registers R_R0) (vm1.registers R_R0) vm1 := by
    simp only [execute, hop]
    simp only [OP_TRAP, OP_ADD, OP_AND, OP_NOT, OP_BR, OP_JMP, OP_JSR, OP_LD, OP_LDI, OP_LDR,
      OP_LEA, OP_ST, OP_STI, OP_STR, reduceCtorEq, Nat.reduceEqDiff, if_false, if_true]
    unfold op_TRAP
    dsimp only
    rw [field_7_0, hvec]
    simp
  have hloop := puts_loop_spec (UINT16_MAX + 1 - vm1.registers R_R0) (vm1.registers R_R0)
    vm1 z (by rw [hr0]; exact hz1) hz2 (by rw [hmem1]; exact hz0)
    (fun i h1 h2 => by rw [hmem1]; exact hnz i (by rw [← hr0]; exact h1) h2)
    (by
      have hz3 : z < 65535 := hz2
      rw [hr0]
      show z - vm.registers R_R0 < 65535 + 1 - vm.registers R_R0
      omega)
  have hout : vm.stdout ++
      (List.range' (vm.registers R_R0) (z - vm.registers R_R0)).map
        (fun a => vm.memory a % 256) =
      vm1.stdout ++ (List.range' (vm1.registers R_R0) (z - vm1.registers R_R0)).map
        (fun a => vm1.memory a % 256) := by
    rw [hr0, hmem1, hout1]
  refine ⟨{ vm1 with
    stdout := vm1.stdout ++ (List.range' (vm1.registers R_R0) (z - vm1.registers R_R0)).map
      (fun a => vm1.memory a % 256) }, ?_, ?_, ?_, ?_, ?_⟩
  · rw [step_of_fetch vm vm1 instr hfetch, hexec, hloop]
  · exact hout.symm
  · intro r hr
    show vm1.registers r = vm.registers r
    rw [hvm1]; simp [VM.setReg, hr]
  · exact hmem1
  · intro hH hI hz
    show vm1.stdout ++ _ = _
    rw [← hout, hz]
    have e : vm.registers R_R0 + 2 - vm.registers R_R0 = 2 := by omega
    rw [e]
    simp [List.range', hH, hI]

theorem step_PUTS_witness :
    ∃ vm2, step putsState = some vm2 ∧ vm2.stdout = [72, 73] ∧
      vm2.registers R_R0 = 0x4000 ∧ vm2.memory = putsState.memory := by
  obtain ⟨vm2, h1, -, h3, h4, h5⟩ := step_PUTS putsState _ 0xF022 0x4002 rfl (by decide)
    (by decide) (by decide) (by decide) (by decide)
    (fun i h1 h2 => by
      have hi : i = 0x4000 ∨ i = 0x4001 := by
        have : putsState.registers R_R0 = 0x4000 := rfl
        omega
      rcases hi with rfl | rfl <;> decide)
  exact ⟨vm2, h1, h5 (by decide) (by decide) (by decide), h3 R_R0 (by decide), h4⟩

/-! ## TRAP PUTSP -/

/-- C12. `TRAP x24` at `0x3000` with R0 = `0x4000`, memory[0x4000] = `0x4948` ('H'
low, 'I' high) and memory[0x4001] = 0: the step writes nothing, where the packed
string would give the bytes 72, 73. -/
theorem step_PUTSP_no_output :
    fetch putspState = some (0xF024, putspState.setReg R_PC 0x3001) ∧
      bits 0xF024 7 0 = TRAP_PUTSP ∧
      putspState.memory (putspState.registers R_R0) % 256 = 72 ∧
      putspState.memory (putspState.registers R_R0) / 256 = 73 ∧
      putspState.memory (putspState.registers R_R0 + 1) = 0 ∧
      (step putspState).map (fun v => v.stdout) = some [] := by
  refine ⟨rfl, by decide, by decide, by decide, by decide, by decide⟩

/-! ## The memory array and the keyboard registers -/

theorem mem_read_after_write (a v : Nat) (vm : VM) (ha : a ≠ MR_KBSR)
    (hlt : a < UINT16_MAX) :
    ∃ vm1, mem_write a v vm = some vm1 ∧ mem_read a vm1 = some (v, vm1) := by
  refine ⟨vm.setMem a v, ?_, ?_⟩
  · unfold mem_write; rw [if_pos hlt]
  · rw [mem_read_plain a _ ha hlt]; simp [VM.setMem]

/-- C14. The array is declared with `UINT16_MAX` = 65535 elements, so the address
`0xFFFF` is not an index of it: `mem_write` and `mem_read` at `0xFFFF` have no
defined result, while at `0xFFFE`, the last element, a write followed by a read
returns the value written. -/
theorem mem_access_top_address :
    UINT16_MAX = 65535 ∧ mem_write 0xFFFF 1 sevenState = none ∧
      mem_read 0xFFFF sevenState = none ∧
      ((mem_write 0xFFFE 1 sevenState).bind (fun v => mem_read 0xFFFE v)).map
        (fun p => p.1) = some 1 := by
  refine ⟨rfl, rfl, rfl, by decide⟩

theorem check_key_headD (vm : VM) : (check_key vm).1 = vm.kbhit.headD false := by
  unfold check_key
  split <;> rename_i h <;> rw [h] <;> rfl

/-- C15. Reading the keyboard status address when the next poll finds no key
returns 0 and leaves the data register word (and every word other than the status
word) unchanged; when the poll finds a key and the next input character is `c`, it
returns `0x8000` (bit 15 set) and the data register word becomes `c`.  Reading any
other index of the array returns the stored word and changes nothing. -/
theorem mem_read_keyboard (vm : VM) :
    (vm.kbhit.headD false = false →
        ∃ vm2, mem_read MR_KBSR vm = some (0, vm2) ∧
          vm2.memory MR_KBDR = vm.memory MR_KBDR ∧
          ∀ a, a ≠ MR_KBSR → vm2.memory a = vm.memory a) ∧
      (∀ ks c cs, vm.kbhit = true :: ks → vm.stdin = c :: cs → c < 256 →
        ∃ v vm2, mem_read MR_KBSR vm = some (v, vm2) ∧ v = 0x8000 ∧
          v.testBit 15 = true ∧ vm2.memory MR_KBDR = c) ∧
      (∀ a, a ≠ MR_KBSR → a < UINT16_MAX → mem_read a vm = some (vm.memory a, vm)) := by
  refine ⟨?_, ?_, fun a ha hlt => mem_read_plain a vm ha hlt⟩
  · intro hk
    have hck : ¬ (check_key vm).1 = true := by rw [check_key_headD, hk]; simp
    refine ⟨(check_key vm).2.setMem MR_KBSR 0, ?_, ?_, ?_⟩
    · rw [mem_read_eq, if_pos (by decide), if_pos rfl, if_neg hck]
    · simp [VM.setMem, (check_key_frame vm).1]
    · intro a ha
      simp [VM.setMem, ha, (check_key_frame vm).1]
  · intro ks c cs hk hs hc
    have hck : (check_key vm).1 = true := by rw [check_key_headD, hk]; rfl
    refine ⟨1 <<< 15, (getchar ((check_key vm).2.setMem MR_KBSR (1 <<< 15))).2.setMem MR_KBDR
      (toU16 (getchar ((check_key vm).2.setMem MR_KBSR (1 <<< 15))).1), ?_, by decide,
      by decide, ?_⟩
    · rw [mem_read_eq, if_pos (by decide), if_pos rfl, if_pos hck]
    · have hin : ((check_key vm).2.setMem MR_KBSR (1 <<< 15)).stdin = c :: cs := by
        show (check_key vm).2.stdin = c :: cs
        rw [(check_key_frame vm).2.2.2.2, hs]
      have hg : (getchar ((check_key vm).2.setMem MR_KBSR (1 <<< 15))).1 = ((c : Nat) : Int) := by
        unfold getchar
        rw [hin]
        simp [Nat.mod_eq_of_lt hc]
      have hmem : ∀ (w : VM) (x : Nat), (w.setMem MR_KBDR x).memory MR_KBDR = x := by
        intro w x; simp [VM.setMem]
      rw [hmem, hg]
      unfold toU16
      omega

theorem mem_read_keyboard_witness :
    (∃ vm2, mem_read MR_KBSR noKeyState = some (0, vm2) ∧ vm2.memory MR_KBDR = 5) ∧
      (∃ v vm2, mem_read MR_KBSR keyState = some (v, vm2) ∧ v = 0x8000 ∧
        vm2.memory MR_KBDR = 97) ∧
      mem_read 0x3000 keyState = some (0, keyState) := by
  obtain ⟨h1, -, -⟩ := mem_read_keyboard noKeyState
  obtain ⟨-, h2, h3⟩ := mem_read_keyboard keyState
  obtain ⟨vm2, ha, hb, -⟩ := h1 rfl
  obtain ⟨v, vm3, hc, hd, -, he⟩ := h2 [] 97 [] rfl rfl (by decide)
  exact ⟨⟨vm2, ha, hb⟩, ⟨v, vm3, hc, hd, he⟩, h3 0x3000 (by decide) (by decide)⟩

/-! ## Completion and flags of the instructions that update the flags -/

theorem mem_read_complete (a : Nat) (vm : VM) (hlt : a < UINT16_MAX) :
    ∃ p, mem_read a vm = some p := by
  rw [mem_read_eq, if_pos hlt]
  split_ifs <;> exact ⟨_, rfl⟩

theorem load_complete (r a : Nat) (vm : VM) (hlt : a < UINT16_MAX) :
    ∃ vm2, (mem_read a vm).map (fun p => update_flags r (p.2.setReg r p.1)) = some vm2 := by
  obtain ⟨p, hp⟩ := mem_read_complete a vm hlt
  rw [hp]
  exact ⟨_, rfl⟩

/-- C2. For a step that fetches an ADD, AND, NOT, LD, LDI, LDR or LEA word in a
well-formed state: whenever the step completes, COND afterwards is one of POSITIVE,
ZERO, NEGATIVE, and it is ZERO iff the destination register (bits 11..9) now holds
0, NEGATIVE iff bit 15 of that register is set, POSITIVE otherwise.  The step does
complete, with those flags, for every ADD, AND, NOT and LEA word, for every LD and
LDI word whose address (incremented PC + sign-extended 9-bit offset) is an index of
the memory array, and for every LDR word whose address (base register +
sign-extended 6-bit offset) is one. -/
theorem flags_after_step (vm vm1 : VM) (instr : Nat) (hwf : WF vm)
    (hfetch : fetch vm = some (instr, vm1))
    (hop : instr >>> 12 = OP_ADD ∨ instr >>> 12 = OP_AND ∨ instr >>> 12 = OP_NOT ∨
      instr >>> 12 = OP_LD ∨ instr >>> 12 = OP_LDI ∨ instr >>> 12 = OP_LDR ∨
      instr >>> 12 = OP_LEA) :
    (∀ vm2, step vm = some vm2 → FlagsMatch vm2 (bits instr 11 9)) ∧
      ((instr >>> 12 = OP_ADD ∨ instr >>> 12 = OP_AND ∨ instr >>> 12 = OP_NOT ∨
          instr >>> 12 = OP_LEA) →
        ∃ vm2, step vm = some vm2 ∧ FlagsMatch vm2 (bits instr 11 9)) ∧
      ((instr >>> 12 = OP_LD ∨ instr >>> 12 = OP_LDI) →
        ((vm.registers R_PC + 1) % 65536 + sext 9 (bits instr 8 0)) % 65536 < UINT16_MAX →
        ∃ vm2, step vm = some vm2 ∧ FlagsMatch vm2 (bits instr 11 9)) ∧
      (instr >>> 12 = OP_LDR →
        (vm.registers (bits instr 8 6) + sext 6 (bits instr 5 0)) % 65536 < UINT16_MAX →
        ∃ vm2, step vm = some vm2 ∧ FlagsMatch vm2 (bits instr 11 9)) := by
  obtain ⟨hflags, hreg⟩ := flags_of_completed_step vm vm1 instr hwf hfetch hop
  have hne0 : instr >>> 12 ≠ OP_BR := by
    rcases hop with h | h | h | h | h | h | h <;> rw [h] <;> decide
  have hne8 : instr >>> 12 ≠ OP_RTI := by
    rcases hop with h | h | h | h | h | h | h <;> rw [h] <;> decide
  obtain ⟨hvm1, -, -⟩ := fetch_plain vm vm1 instr hfetch hne0 hne8
  have hpc1 : vm1.registers R_PC = (vm.registers R_PC + 1) % 65536 := by
    rw [hvm1]; simp [VM.setReg]
  have h6 : bits instr 8 6 ≠ R_PC := by
    have := bits_lt instr 8 6
    show bits instr 8 6 ≠ 8
    omega
  have hreg6 : vm1.registers (bits instr 8 6) = vm.registers (bits instr 8 6) := by
    rw [hvm1]; simp [VM.setReg, h6]
  refine ⟨hflags, ?_, ?_, ?_⟩
  · intro h
    obtain ⟨vm2, h2⟩ := hreg h
    exact ⟨vm2, h2, hflags vm2 h2⟩
  · intro h hlt
    have hc : ∃ vm2, step vm = some vm2 := by
      rw [step_of_fetch vm vm1 instr hfetch]
      rcases h with h | h
      · simp only [execute, h]
        simp only [OP_LD, OP_ADD, OP_AND, OP_NOT, OP_BR, OP_JMP, OP_JSR, reduceCtorEq,
          Nat.reduceEqDiff, if_false, if_true]
        unfold op_LD
        dsimp only
        rw [sign_extend_off9, hpc1]
        exact load_complete _ _ vm1 hlt
      · simp only [execute, h]
        simp only [OP_LD, OP_LDI, OP_ADD, OP_AND, OP_NOT, OP_BR, OP_JMP, OP_JSR, reduceCtorEq,
          Nat.reduceEqDiff, if_false, if_true]
        unfold op_LDI
        dsimp only
        rw [sign_extend_off9, hpc1]
        exact load_complete _ _ vm1 hlt
    obtain ⟨vm2, h2⟩ := hc
    exact ⟨vm2, h2, hflags vm2 h2⟩
  · intro h hlt
    have hc : ∃ vm2, step vm = some vm2 := by
      rw [step_of_fetch vm vm1 instr hfetch]
      simp only [execute, h]
      simp only [OP_LD, OP_LDI, OP_LDR, OP_ADD, OP_AND, OP_NOT, OP_BR, OP_JMP, OP_JSR,
        reduceCtorEq, Nat.reduceEqDiff, if_false, if_true]
      unfold op_LDR
      dsimp only
      rw [sign_extend_off6, field_8_6, hreg6]
      exact load_complete _ _ vm1 hlt
    obtain ⟨vm2, h2⟩ := hc
    exact ⟨vm2, h2, hflags vm2 h2⟩

theorem flags_after_step_witness :
    (∃ vm2, step addState = some vm2 ∧ FlagsMatch vm2 0) ∧
      (∃ vm2, step ldState = some vm2 ∧ FlagsMatch vm2 1) ∧
      (∃ vm2, step ldiState = some vm2 ∧ FlagsMatch vm2 0) ∧
      (∃ vm2, step ldrState = some vm2 ∧ FlagsMatch vm2 2) := by
  have hwf : ∀ m r : Nat → Nat, (∀ a, m a < 65536) → (∀ a, r a < 65536) →
      WF (mkState m r) := wf_mkState
  have w1 : WF addState := hwf _ _ (fun a => by split_ifs <;> decide)
    (fun r => by split_ifs <;> decide)
  have w2 : WF ldState := hwf _ _ (fun a => by split_ifs <;> decide)
    (fun r => by split_ifs <;> decide)
  have w3 : WF ldiState := hwf _ _ (fun a => by split_ifs <;> decide)
    (fun r => by split_ifs <;> decide)
  have w4 : WF ldrState := hwf _ _ (fun a => by split_ifs <;> decide)
    (fun r => by split_ifs <;> decide)
  exact ⟨(flags_after_step addState _ 0x107D w1 rfl (by decide)).2.1 (by decide),
    (flags_after_step ldState _ 0x2201 w2 rfl (by decide)).2.2.1 (by decide) (by decide),
    (flags_after_step ldiState _ 0xA001 w3 rfl (by decide)).2.2.1 (by decide) (by decide),
    (flags_after_step ldrState _ 0x64C0 w4 rfl (by decide)).2.2.2 (by decide) (by decide)⟩

/-! ## COND along the run -/

theorem update_flags_oneHot (r : Nat) (vm : VM) : OneHot (update_flags r vm) := by
  unfold OneHot update_flags
  split_ifs
  · right; left; simp [VM.setReg]
  · right; right; simp [VM.setReg]
  · left; simp [VM.setReg]

theorem load_oneHot (r a : Nat) (vm vm2 : VM)
    (h : (mem_read a vm).map (fun p => update_flags r (p.2.setReg r p.1)) = some vm2) :
    OneHot vm2 := by
  rw [Option.map_eq_some'] at h
  obtain ⟨p, -, hp⟩ := h
  rw [← hp]; exact update_flags_oneHot _ _

/-- A step on a flag-updating word ends with COND one of the three flags. -/
theorem execute_updatesFlags (instr : Nat) (vm vm2 : VM) (hu : updatesFlags instr)
    (h : execute instr vm = some vm2) : OneHot vm2 := by
  rcases hu with hu | hu | hu | hu | hu | hu | hu
  · simp [execute, hu] at h
    rw [← h]; exact update_flags_oneHot _ _
  · simp [execute, hu] at h
    rw [← h]; exact update_flags_oneHot _ _
  · simp [execute, hu] at h
    rw [← h]; exact update_flags_oneHot _ _
  · simp only [execute, hu] at h
    simp only [OP_LD, OP_ADD, OP_AND, OP_NOT, OP_BR, OP_JMP, OP_JSR, reduceCtorEq,
      Nat.reduceEqDiff, if_false, if_true] at h
    exact load_oneHot _ _ _ _ h
  · simp only [execute, hu] at h
    simp only [OP_LD, OP_LDI, OP_ADD, OP_AND, OP_NOT, OP_BR, OP_JMP, OP_JSR, reduceCtorEq,
      Nat.reduceEqDiff, if_false, if_true] at h
    exact load_oneHot _ _ _ _ h
  · simp only [execute, hu] at h
    simp only [OP_LD, OP_LDI, OP_LDR, OP_ADD, OP_AND, OP_NOT, OP_BR, OP_JMP, OP_JSR,
      reduceCtorEq, Nat.reduceEqDiff, if_false, if_true] at h
    exact load_oneHot _ _ _ _ h
  · simp [execute, hu] at h
    rw [← h]; exact update_flags_oneHot _ _

/-- A step on any other word leaves COND as it was. -/
theorem execute_not_updatesFlags (instr : Nat) (vm vm2 : VM) (hu : ¬ updatesFlags instr)
    (h : execute instr vm = some vm2) : vm2.registers R_COND = vm.registers R_COND := by
  revert h
  refine execute_by_op (fun o => o = some vm2 → vm2.registers R_COND = vm.registers R_COND)
    instr vm ?_ ?_ ?_ ?_ ?_ ?_ ?_ ?_ ?_ ?_ ?_ ?_ ?_ ?_ ?_
  · intro hop; exact absurd (Or.inl hop) hu
  · intro hop; exact absurd (Or.inr (Or.inl hop)) hu
  · intro hop; exact absurd (Or.inr (Or.inr (Or.inl hop))) hu
  · intro _ h; simp only [Option.some.injEq] at h; rw [← h]
    exact (op_BR_frame _ _).2 R_COND (by decide)
  · intro _ h; simp only [Option.some.injEq] at h; rw [← h]
    simp [op_JMP, VM.setReg]
  · intro _ h; simp only [Option.some.injEq] at h; rw [← h]
    exact (op_JSR_frame _ _).2 R_COND (by decide) (by decide)
  · intro hop; exact absurd (Or.inr (Or.inr (Or.inr (Or.inl hop)))) hu
  · intro hop; exact absurd (Or.inr (Or.inr (Or.inr (Or.inr (Or.inl hop))))) hu
  · intro hop; exact absurd (Or.inr (Or.inr (Or.inr (Or.inr (Or.inr (Or.inl hop)))))) hu
  · intro hop; exact absurd (Or.inr (Or.inr (Or.inr (Or.inr (Or.inr (Or.inr hop)))))) hu
  · intro _ h
    obtain ⟨-, h3⟩ := mem_write_some _ _ _ _ h
    rw [h3]; rfl
  · intro _ h
    rw [(op_STI_some instr vm vm2 h).1]
  · intro _ h
    obtain ⟨-, h3⟩ := mem_write_some _ _ _ _ h
    rw [h3]; rfl
  · intro _ h
    exact (op_TRAP_frame instr vm vm2 h).2 R_COND (by decide)
  · intro h; simp only [Option.some.injEq] at h; rw [← h]

theorem step_cond (vm vm1 vm2 : VM) (instr : Nat) (hfetch : fetch vm = some (instr, vm1))
    (hstep : step vm = some vm2) :
    (updatesFlags instr → OneHot vm2) ∧
      (¬ updatesFlags instr → vm2.registers R_COND = vm.registers R_COND) := by
  rw [step_of_fetch vm vm1 instr hfetch] at hstep
  have hc1 : vm1.registers R_COND = vm.registers R_COND :=
    (fetch_some vm vm1 instr hfetch).2.2.2.1 R_COND (by decide)
  exact ⟨fun hu => execute_updatesFlags instr vm1 vm2 hu hstep,
    fun hu => by rw [execute_not_updatesFlags instr vm1 vm2 hu hstep, hc1]⟩

theorem step_oneHot (vm vm2 : VM) (hc : OneHot vm) (h : step vm = some vm2) : OneHot vm2 := by
  have h0 := h
  unfold step at h0
  simp only [Option.bind_eq_some] at h0
  obtain ⟨⟨instr, vm1⟩, hfetch, -⟩ := h0
  obtain ⟨h1, h2⟩ := step_cond vm vm1 vm2 instr hfetch h
  by_cases hu : updatesFlags instr
  · exact h1 hu
  · unfold OneHot at hc ⊢
    rw [h2 hu]; exact hc

theorem run_oneHot (n : Nat) : ∀ (vm vm2 : VM), OneHot vm → run n vm = some vm2 → OneHot vm2 := by
  induction n with
  | zero =>
    intro vm vm2 hc h
    simp only [run, Option.some.injEq] at h
    rw [← h]; exact hc
  | succ k ih =>
    intro vm vm2 hc h
    unfold run at h
    split_ifs at h
    · simp only [Option.bind_eq_some] at h
      obtain ⟨vm1, h1, h2⟩ := h
      exact ih vm1 vm2 (step_oneHot vm vm1 hc h1) h2
    · simp only [Option.some.injEq] at h
      rw [← h]; exact hc

/-- C16 (as amended). In the state in which `main` enters the loop COND is 0.  In
every state `vm2` the loop reaches from it (after any number of iterations) COND is
0 or exactly one of POSITIVE (1), ZERO (2), NEGATIVE (4); the next step leaves COND
one of the three flags when it executes a flag-updating instruction (ADD, AND, NOT,
LD, LDI, LDR, LEA) and leaves COND unchanged otherwise; and once COND is one of the
three flags it is one of them in every later state.  So COND is 0 only as long as
no flag-updating instruction has executed. -/
theorem cond_reachable (memory : Nat → Nat) (kbhit : List Bool) (stdin : List Nat)
    (n : Nat) (vm2 : VM) (h : run n (initial memory kbhit stdin) = some vm2) :
    (initial memory kbhit stdin).registers R_COND = 0 ∧
      (vm2.registers R_COND = 0 ∨ vm2.registers R_COND = FL_POS ∨
        vm2.registers R_COND = FL_ZRO ∨ vm2.registers R_COND = FL_NEG) ∧
      (∀ instr vm1 vm3, fetch vm2 = some (instr, vm1) → step vm2 = some vm3 →
        (updatesFlags instr → OneHot vm3) ∧
        (¬ updatesFlags instr → vm3.registers R_COND = vm2.registers R_COND)) ∧
      (∀ m vm3, OneHot vm2 → run m vm2 = some vm3 → OneHot vm3) :=
  ⟨rfl, run_condOK n _ vm2 (Or.inl rfl) h,
    fun instr vm1 vm3 hf hs => step_cond vm2 vm1 vm3 instr hf hs,
    fun m vm3 hc hr => run_oneHot m vm2 vm3 hc hr⟩

theorem cond_reachable_witness :
    (initial addMemory [] []).registers R_COND = 0 ∧
      (∃ vm2, run 1 (initial addMemory [] []) = some vm2 ∧ OneHot vm2 ∧
        ∃ vm3, run 2 vm2 = some vm3 ∧ OneHot vm3) := by
  obtain ⟨h0, -, hstep, -⟩ := cond_reachable addMemory [] [] 0 _ rfl
  have h1 : OneHot _ := (hstep 0x107D _ _ rfl rfl).1 (Or.inl (by decide))
  obtain ⟨-, -, -, hlater⟩ := cond_reachable addMemory [] [] 1 _ rfl
  exact ⟨h0, _, rfl, h1, _, rfl, hlater 2 _ h1 rfl⟩

end LC3
